import Mathlib

/-!
Verification development for the lcode3d quasi-static plasma PIC solver
(`lcode.py`).  Python/numpy/cupy code is shallowly embedded:

* numpy arrays become total functions (`ℕ → ℚ/ℝ`, `ℤ → ℤ → ℝ` for grids),
  with sizes carried separately and sums taken over explicit `Finset` ranges;
* GPU kernels that map independently over particles / fine lattice points
  become pointwise functions; the atomic scatter accumulation of
  `deposit_kernel` becomes a `Finset` sum of per-particle contributions
  (exact real addition is associative and commutative, so the accumulation
  order the GPU leaves unspecified does not matter in the embedding);
* floating point arithmetic is idealized as exact arithmetic over `ℚ`
  (where the code needs no square roots) or `ℝ`;
* the external FFT library call `cp.fft.rfft2` used by `dst2d` is embedded
  by its documented mathematics, a plain 2D DFT with complex exponentials;
  the external `scipy.fftpack.dctn/idctn(type=1)` calls of `MixedSolver`
  are likewise embedded by the documented DCT-I kernels.
-/

set_option maxHeartbeats 1000000

open Finset

namespace LCode

/-! ### Virtualization table construction (`plasma_make`, lcode.py 736-848) -/

/-- Number of points in `right_half` of `make_coarse_plasma_grid`:
`np.arange(steps // (coarseness * 2))`. -/
def coarse_half (steps coarseness : ℕ) : ℕ := steps / (coarseness * 2)

/-- Number of coarse grid points: `left_half` (reversed, zero dropped)
followed by `right_half`. -/
def coarse_count (steps coarseness : ℕ) : ℕ := 2 * coarse_half steps coarseness - 1

/-- `make_coarse_plasma_grid steps step_size coarseness` as a function of the
index `i < coarse_count`: the concatenation of `-right_half[:0:-1]` and
`right_half` where `right_half = arange(steps // (2*coarseness)) * plasma_step`,
i.e. the value `(i + 1 - coarse_half) * (step_size * coarseness)`. -/
def coarse_grid_val (steps : ℕ) (step_size : ℚ) (coarseness : ℕ) (i : ℕ) : ℚ :=
  ((i : ℚ) + 1 - (coarse_half steps coarseness : ℚ)) * (step_size * coarseness)

/-- Number of points in `right_half` of `make_fine_plasma_grid`:
`np.arange(steps // 2 * fineness)`. -/
def fine_half (steps fineness : ℕ) : ℕ := steps / 2 * fineness

/-- Number of fine grid points (`fineness` odd keeps a point on the axis and
drops the duplicated zero; `fineness` even offsets all points by half a step). -/
def fine_count (steps fineness : ℕ) : ℕ :=
  if fineness % 2 = 1 then 2 * fine_half steps fineness - 1 else 2 * fine_half steps fineness

/-- `make_fine_plasma_grid steps step_size fineness` as a function of the index:
odd `fineness`: values `k * (step_size / fineness)`, `k = i + 1 - fine_half`;
even `fineness`: values `(k + 1/2) * (step_size / fineness)`, `k = i - fine_half`. -/
def fine_grid_val (steps : ℕ) (step_size : ℚ) (fineness : ℕ) (i : ℕ) : ℚ :=
  if fineness % 2 = 1 then
    ((i : ℚ) + 1 - (fine_half steps fineness : ℚ)) * (step_size / fineness)
  else
    ((i : ℚ) + 1 / 2 - (fine_half steps fineness : ℚ)) * (step_size / fineness)

/-- `np.searchsorted(g[0:n], v)` (side `left`) on a sorted array: the number of
entries strictly smaller than `v`. -/
def searchsorted_count (g : ℕ → ℚ) (n : ℕ) (v : ℚ) : ℕ :=
  ((Finset.range n).filter (fun j => g j < v)).card

/-- `indices_next = np.clip(indices, 0, Nc - 1)` (lcode.py 792). -/
def indices_next_of (g : ℕ → ℚ) (n : ℕ) (v : ℚ) : ℕ :=
  min (searchsorted_count g n v) (n - 1)

/-- `indices_prev = np.clip(indices - 1, 0, Nc - 1)` (lcode.py 793); the `- 1`
on a nonnegative int followed by the clip at `0` is natural subtraction. -/
def indices_prev_of (g : ℕ → ℚ) (n : ℕ) (v : ℚ) : ℕ :=
  min (searchsorted_count g n v - 1) (n - 1)

/-- `influence_prev` along one axis (lcode.py 804/806) with the boundary
fix-up of lines 810-817 applied: positions at or beyond the last coarse point
were finally overwritten to `1`, positions at or before the first coarse point
to `0`, all others keep `(coarse[i_next] - v) / coarse_step`. -/
def influence_prev (steps : ℕ) (step_size : ℚ) (coarseness : ℕ) (v : ℚ) : ℚ :=
  let g := coarse_grid_val steps step_size coarseness
  let n := coarse_count steps coarseness
  if coarse_grid_val steps step_size coarseness (n - 1) ≤ v then 1
  else if v ≤ coarse_grid_val steps step_size coarseness 0 then 0
  else (g (indices_next_of g n v) - v) / (step_size * coarseness)

/-- `influence_next` along one axis (lcode.py 805/807) with the boundary
fix-up of lines 810-817 applied (final overwrites: `0` at/beyond the last
coarse point, `1` at/before the first). -/
def influence_next (steps : ℕ) (step_size : ℚ) (coarseness : ℕ) (v : ℚ) : ℚ :=
  let g := coarse_grid_val steps step_size coarseness
  let n := coarse_count steps coarseness
  if coarse_grid_val steps step_size coarseness (n - 1) ≤ v then 0
  else if v ≤ coarse_grid_val steps step_size coarseness 0 then 1
  else (v - g (indices_prev_of g n v)) / (step_size * coarseness)

/-- `A_weights[fi, fj] = influence_prev_x * influence_prev_y` (lcode.py 832). -/
def A_weight (steps : ℕ) (step_size : ℚ) (coarseness fineness fi fj : ℕ) : ℚ :=
  influence_prev steps step_size coarseness (fine_grid_val steps step_size fineness fi) *
    influence_prev steps step_size coarseness (fine_grid_val steps step_size fineness fj)

/-- `B_weights[fi, fj] = influence_next_x * influence_prev_y` (lcode.py 834). -/
def B_weight (steps : ℕ) (step_size : ℚ) (coarseness fineness fi fj : ℕ) : ℚ :=
  influence_next steps step_size coarseness (fine_grid_val steps step_size fineness fi) *
    influence_prev steps step_size coarseness (fine_grid_val steps step_size fineness fj)

/-- `C_weights[fi, fj] = influence_prev_x * influence_next_y` (lcode.py 836). -/
def C_weight (steps : ℕ) (step_size : ℚ) (coarseness fineness fi fj : ℕ) : ℚ :=
  influence_prev steps step_size coarseness (fine_grid_val steps step_size fineness fi) *
    influence_next steps step_size coarseness (fine_grid_val steps step_size fineness fj)

/-- `D_weights[fi, fj] = influence_next_x * influence_next_y` (lcode.py 838). -/
def D_weight (steps : ℕ) (step_size : ℚ) (coarseness fineness fi fj : ℕ) : ℚ :=
  influence_next steps step_size coarseness (fine_grid_val steps step_size fineness fi) *
    influence_next steps step_size coarseness (fine_grid_val steps step_size fineness fj)

/-! ### 9-point quadratic-spline weighting (`weights`, `interp9`, `deposit9`,
lcode.py 281-320), generic over an ordered field with a floor. -/

/-- The result bundle of `weights` (lcode.py 281-297): the central cell index
and the nine spline weights. -/
structure Weights9 (K : Type) where
  i : ℤ
  j : ℤ
  wMP : K
  w0P : K
  wPP : K
  wM0 : K
  w00 : K
  wP0 : K
  wMM : K
  w0M : K
  wPM : K

/-- `weights(x, y, grid_steps, grid_step_size)` (lcode.py 281-297):
cell-centered fractional offsets and the 3x3 quadratic-spline weights. -/
def weights {K : Type} [LinearOrderedField K] [FloorRing K]
    (x y : K) (grid_steps : ℕ) (grid_step_size : K) : Weights9 K :=
  let x_h := x / grid_step_size + 1 / 2
  let y_h := y / grid_step_size + 1 / 2
  let i : ℤ := ⌊x_h⌋ + (grid_steps / 2 : ℕ)
  let j : ℤ := ⌊y_h⌋ + (grid_steps / 2 : ℕ)
  let x_loc := x_h - ⌊x_h⌋ - 1 / 2
  let y_loc := y_h - ⌊y_h⌋ - 1 / 2
  let wx0 := 3 / 4 - x_loc ^ 2
  let wy0 := 3 / 4 - y_loc ^ 2
  let wxP := (1 / 2 + x_loc) ^ 2 / 2
  let wyP := (1 / 2 + y_loc) ^ 2 / 2
  let wxM := (1 / 2 - x_loc) ^ 2 / 2
  let wyM := (1 / 2 - y_loc) ^ 2 / 2
  ⟨i, j, wxM * wyP, wx0 * wyP, wxP * wyP,
         wxM * wy0, wx0 * wy0, wxP * wy0,
         wxM * wyM, wx0 * wyM, wxP * wyM⟩

/-- `interp9` (lcode.py 300-306): weighted gather from the 3x3 neighborhood. -/
def interp9 {K : Type} [LinearOrderedField K] (a : ℤ → ℤ → K) (w : Weights9 K) : K :=
  a (w.i - 1) (w.j + 1) * w.wMP + a w.i (w.j + 1) * w.w0P + a (w.i + 1) (w.j + 1) * w.wPP +
  a (w.i - 1) w.j * w.wM0 + a w.i w.j * w.w00 + a (w.i + 1) w.j * w.wP0 +
  a (w.i - 1) (w.j - 1) * w.wMM + a w.i (w.j - 1) * w.w0M + a (w.i + 1) (w.j - 1) * w.wPM

/-- `numba.cuda.atomic.add(a, p, v)`: the grid with `v` added at index pair
`p`.  Exact addition is commutative/associative, so the unspecified atomic
ordering is immaterial in the embedding. -/
def addAt {K : Type} [LinearOrderedField K]
    (a : ℤ → ℤ → K) (p : ℤ × ℤ) (v : K) : ℤ → ℤ → K :=
  fun r s => a r s + (if (r, s) = p then v else 0)

/-- `deposit9` (lcode.py 309-320): nine atomic adds of `val` scattered with the
spline weights. -/
def deposit9 {K : Type} [LinearOrderedField K] (a : ℤ → ℤ → K) (w : Weights9 K) (val : K) :
    ℤ → ℤ → K :=
  addAt (addAt (addAt (addAt (addAt (addAt (addAt (addAt (addAt a
    (w.i - 1, w.j + 1) (val * w.wMP))
    (w.i, w.j + 1) (val * w.w0P))
    (w.i + 1, w.j + 1) (val * w.wPP))
    (w.i - 1, w.j) (val * w.wM0))
    (w.i, w.j) (val * w.w00))
    (w.i + 1, w.j) (val * w.wP0))
    (w.i - 1, w.j - 1) (val * w.wMM))
    (w.i, w.j - 1) (val * w.w0M))
    (w.i + 1, w.j - 1) (val * w.wPM)

/-- The 3x3 neighborhood of cells targeted by `deposit9`. -/
def nineCells (i j : ℤ) : Finset (ℤ × ℤ) :=
  Finset.Icc (i - 1) (i + 1) ×ˢ Finset.Icc (j - 1) (j + 1)

/-- The full grid of an `N`x`N` array, as index pairs. -/
def gridCells (N : ℕ) : Finset (ℤ × ℤ) :=
  Finset.Icc (0 : ℤ) ((N : ℤ) - 1) ×ˢ Finset.Icc (0 : ℤ) ((N : ℤ) - 1)

/-! ### Deposition (`deposit_kernel` / `deposit`, lcode.py 323-391) -/

/-- The virtualization metadata bundle passed to `deposit_kernel`
(the `GPUArrays` built at the end of `plasma_make`). -/
structure VirtParams where
  A_weights : ℕ → ℕ → ℝ
  B_weights : ℕ → ℕ → ℝ
  C_weights : ℕ → ℕ → ℝ
  D_weights : ℕ → ℕ → ℝ
  fine_grid : ℕ → ℝ
  indices_prev : ℕ → ℕ
  indices_next : ℕ → ℕ

/-- The coarse particle arrays read by `deposit_kernel`. -/
structure CoarseArrays where
  x_offt : ℕ → ℕ → ℝ
  y_offt : ℕ → ℕ → ℝ
  m : ℕ → ℕ → ℝ
  q : ℕ → ℕ → ℝ
  px : ℕ → ℕ → ℝ
  py : ℕ → ℕ → ℝ
  pz : ℕ → ℕ → ℝ

/-- The bilinear coarse-to-fine reconstruction
`A*c[px,py] + B*c[nx,py] + C*c[px,ny] + D*c[nx,ny]`
(lcode.py 343-351) of a coarse per-particle array `c` at fine point `(pi, pj)`. -/
def fine_bilin (vp : VirtParams) (c : ℕ → ℕ → ℝ) (pi pj : ℕ) : ℝ :=
  vp.A_weights pi pj * c (vp.indices_prev pi) (vp.indices_prev pj)
    + vp.B_weights pi pj * c (vp.indices_next pi) (vp.indices_prev pj)
    + vp.C_weights pi pj * c (vp.indices_prev pi) (vp.indices_next pj)
    + vp.D_weights pi pj * c (vp.indices_next pi) (vp.indices_next pj)

/-- Fine-particle x position: `fine_grid[pi] + x_offt` (lcode.py 345). -/
def fine_x (vp : VirtParams) (ca : CoarseArrays) (pi pj : ℕ) : ℝ :=
  vp.fine_grid pi + fine_bilin vp ca.x_offt pi pj

/-- Fine-particle y position: `fine_grid[pj] + y_offt` (lcode.py 346). -/
def fine_y (vp : VirtParams) (ca : CoarseArrays) (pi pj : ℕ) : ℝ :=
  vp.fine_grid pj + fine_bilin vp ca.y_offt pi pj

/-- Fine-particle mass, interpolated then scaled by the smallness factor
(lcode.py 347, 352). -/
def fine_m (vp : VirtParams) (ca : CoarseArrays) (small : ℝ) (pi pj : ℕ) : ℝ :=
  small * fine_bilin vp ca.m pi pj

/-- Fine-particle charge (lcode.py 348, 353). -/
def fine_q (vp : VirtParams) (ca : CoarseArrays) (small : ℝ) (pi pj : ℕ) : ℝ :=
  small * fine_bilin vp ca.q pi pj

/-- Fine-particle x momentum (lcode.py 349, 354). -/
def fine_px (vp : VirtParams) (ca : CoarseArrays) (small : ℝ) (pi pj : ℕ) : ℝ :=
  small * fine_bilin vp ca.px pi pj

/-- Fine-particle y momentum (lcode.py 350, 355). -/
def fine_py (vp : VirtParams) (ca : CoarseArrays) (small : ℝ) (pi pj : ℕ) : ℝ :=
  small * fine_bilin vp ca.py pi pj

/-- Fine-particle z momentum (lcode.py 351, 356). -/
def fine_pz (vp : VirtParams) (ca : CoarseArrays) (small : ℝ) (pi pj : ℕ) : ℝ :=
  small * fine_bilin vp ca.pz pi pj

/-- `gamma_m = sqrt(m**2 + p_x**2 + p_y**2 + p_z**2)` (lcode.py 358). -/
noncomputable def fine_gamma_m (vp : VirtParams) (ca : CoarseArrays) (small : ℝ) (pi pj : ℕ) : ℝ :=
  Real.sqrt (fine_m vp ca small pi pj ^ 2 + fine_px vp ca small pi pj ^ 2
    + fine_py vp ca small pi pj ^ 2 + fine_pz vp ca small pi pj ^ 2)

/-- `dro = q / (1 - p_z / gamma_m)` (lcode.py 359). -/
noncomputable def fine_dro (vp : VirtParams) (ca : CoarseArrays) (small : ℝ) (pi pj : ℕ) : ℝ :=
  fine_q vp ca small pi pj / (1 - fine_pz vp ca small pi pj / fine_gamma_m vp ca small pi pj)

/-- `djx = p_x * (dro / gamma_m)` (lcode.py 360). -/
noncomputable def fine_djx (vp : VirtParams) (ca : CoarseArrays) (small : ℝ) (pi pj : ℕ) : ℝ :=
  fine_px vp ca small pi pj * (fine_dro vp ca small pi pj / fine_gamma_m vp ca small pi pj)

/-- `djy = p_y * (dro / gamma_m)` (lcode.py 361). -/
noncomputable def fine_djy (vp : VirtParams) (ca : CoarseArrays) (small : ℝ) (pi pj : ℕ) : ℝ :=
  fine_py vp ca small pi pj * (fine_dro vp ca small pi pj / fine_gamma_m vp ca small pi pj)

/-- `djz = p_z * (dro / gamma_m)` (lcode.py 362). -/
noncomputable def fine_djz (vp : VirtParams) (ca : CoarseArrays) (small : ℝ) (pi pj : ℕ) : ℝ :=
  fine_pz vp ca small pi pj * (fine_dro vp ca small pi pj / fine_gamma_m vp ca small pi pj)

/-- The spline weights of fine particle `(pi, pj)` (lcode.py 364-366). -/
noncomputable def fine_weights (grid_steps : ℕ) (grid_step_size : ℝ)
    (vp : VirtParams) (ca : CoarseArrays) (pi pj : ℕ) : Weights9 ℝ :=
  weights (fine_x vp ca pi pj) (fine_y vp ca pi pj) grid_steps grid_step_size

/-- The fine lattice index set the kernel strides over
(`pk < A_weights.size`, split as `pi, pj = pk // Nf, pk % Nf`). -/
def fineIndices (Nf : ℕ) : Finset (ℕ × ℕ) := Finset.range Nf ×ˢ Finset.range Nf

/-- The accumulated scatter of per-fine-particle values `val` onto the grid:
the sum over all fine particles of their `deposit9` contribution.  This is the
exact denotation of the kernel's atomic accumulation onto a zero-initialized
array. -/
noncomputable def deposit_scatter (Nf grid_steps : ℕ) (grid_step_size : ℝ)
    (vp : VirtParams) (ca : CoarseArrays) (val : ℕ → ℕ → ℝ) : ℤ → ℤ → ℝ :=
  fun r s => ∑ p ∈ fineIndices Nf,
    deposit9 (fun _ _ => 0) (fine_weights grid_steps grid_step_size vp ca p.1 p.2)
      (val p.1 p.2) r s

/-- The `ro` output of `deposit` (lcode.py 373-391): scatter of `dro` plus the
fixed ion background `ro_initial`, added last. -/
noncomputable def deposit_ro (Nf grid_steps : ℕ) (grid_step_size : ℝ)
    (vp : VirtParams) (ca : CoarseArrays) (small : ℝ) (ro_initial : ℤ → ℤ → ℝ) :
    ℤ → ℤ → ℝ :=
  fun r s => ro_initial r s
    + deposit_scatter Nf grid_steps grid_step_size vp ca (fine_dro vp ca small) r s

/-- The `jx` output of `deposit`. -/
noncomputable def deposit_jx (Nf grid_steps : ℕ) (grid_step_size : ℝ)
    (vp : VirtParams) (ca : CoarseArrays) (small : ℝ) : ℤ → ℤ → ℝ :=
  deposit_scatter Nf grid_steps grid_step_size vp ca (fine_djx vp ca small)

/-- The `jy` output of `deposit`. -/
noncomputable def deposit_jy (Nf grid_steps : ℕ) (grid_step_size : ℝ)
    (vp : VirtParams) (ca : CoarseArrays) (small : ℝ) : ℤ → ℤ → ℝ :=
  deposit_scatter Nf grid_steps grid_step_size vp ca (fine_djy vp ca small)

/-- The `jz` output of `deposit`. -/
noncomputable def deposit_jz (Nf grid_steps : ℕ) (grid_step_size : ℝ)
    (vp : VirtParams) (ca : CoarseArrays) (small : ℝ) : ℤ → ℤ → ℝ :=
  deposit_scatter Nf grid_steps grid_step_size vp ca (fine_djz vp ca small)

/-- Comparison definition, following the words of the specification claim:
the "total charge of all virtual particles", i.e. the sum over fine points of
the bilinearly interpolated charge scaled by the smallness factor. -/
def total_virtual_charge (Nf : ℕ) (vp : VirtParams) (ca : CoarseArrays) (small : ℝ) : ℝ :=
  ∑ p ∈ fineIndices Nf, fine_q vp ca small p.1 p.2

/-- Concrete trivial virtualization table used in concrete instances:
one-to-one mapping of fine onto coarse particles (`A = 1`, `B = C = D = 0`),
all fine lattice positions on the axis. -/
noncomputable def vpTriv : VirtParams :=
  ⟨fun _ _ => 1, fun _ _ => 0, fun _ _ => 0, fun _ _ => 0, fun _ => 0,
    fun k => k, fun k => k⟩

/-- Concrete particle ensemble for counterexamples/witnesses: all particles at
rest positions with `m = 3`, `q = 1` and purely longitudinal momentum `pz = 4`
(so that `gamma_m = 5`). -/
noncomputable def caTest : CoarseArrays :=
  ⟨fun _ _ => 0, fun _ _ => 0, fun _ _ => 3, fun _ _ => 1,
    fun _ _ => 0, fun _ _ => 0, fun _ _ => 4⟩

/-! ### Particle pusher (`move_estimate_wo_fields_kernel` lcode.py 239-262,
`move_smart_kernel` lcode.py 409-484) -/

/-- Per-particle output bundle of a pusher kernel. -/
structure PushOut where
  x_offt : ℝ
  y_offt : ℝ
  px : ℝ
  py : ℝ
  pz : ℝ

/-- `move_estimate_wo_fields_kernel` (lcode.py 239-262) for one particle:
field-free streaming followed by the predictor's momentum-blind double mirror.
The kernel writes only the offset arrays; the momentum fields of the result
carry the unchanged inputs, exactly as the caller keeps using the previous
momenta. -/
noncomputable def move_estimate_wo_fields_one (xi_step_size reflect_boundary
    m x_init y_init x_offt y_offt px py pz : ℝ) : PushOut :=
  let gamma_m := Real.sqrt (m ^ 2 + pz ^ 2 + px ^ 2 + py ^ 2)
  let x := x_init + x_offt + px / (gamma_m - pz) * xi_step_size
  let y := y_init + y_offt + py / (gamma_m - pz) * xi_step_size
  let x1 := if x ≤ reflect_boundary then x else 2 * reflect_boundary - x
  let x2 := if -reflect_boundary ≤ x1 then x1 else -(2 * reflect_boundary) - x1
  let y1 := if y ≤ reflect_boundary then y else 2 * reflect_boundary - y
  let y2 := if -reflect_boundary ≤ y1 then y1 else -(2 * reflect_boundary) - y1
  ⟨x2 - x_init, y2 - y_init, px, py, pz⟩

/-- The pre-reflection part of `move_smart_kernel` (lcode.py 421-461): field
interpolation at the half-step position, the two Boris-like momentum
sub-iterations, the offset advance with the half-stepped momenta, and the
final full momentum increment.  `Bz = 0` (lcode.py 438). -/
noncomputable def move_smart_core (xi_step_size grid_step_size : ℝ) (grid_steps : ℕ)
    (m q x_init y_init prev_x_offt prev_y_offt estimated_x_offt estimated_y_offt
      opx opy opz : ℝ)
    (Ex_avg Ey_avg Ez_avg Bx_avg By_avg : ℤ → ℤ → ℝ) : PushOut :=
  let x_halfstep := x_init + (prev_x_offt + estimated_x_offt) / 2
  let y_halfstep := y_init + (prev_y_offt + estimated_y_offt) / 2
  let w := weights x_halfstep y_halfstep grid_steps grid_step_size
  let Ex := interp9 Ex_avg w
  let Ey := interp9 Ey_avg w
  let Ez := interp9 Ez_avg w
  let Bx := interp9 Bx_avg w
  let By := interp9 By_avg w
  let Bz : ℝ := 0
  let gamma1 := Real.sqrt (m ^ 2 + opz ^ 2 + opx ^ 2 + opy ^ 2)
  let vx1 := opx / gamma1
  let vy1 := opy / gamma1
  let vz1 := opz / gamma1
  let f1 := q * xi_step_size / (1 - opz / gamma1)
  let dpx1 := f1 * (Ex + vy1 * Bz - vz1 * By)
  let dpy1 := f1 * (Ey - vx1 * Bz + vz1 * Bx)
  let dpz1 := f1 * (Ez + vx1 * By - vy1 * Bx)
  let px1 := opx + dpx1 / 2
  let py1 := opy + dpy1 / 2
  let pz1 := opz + dpz1 / 2
  let gamma2 := Real.sqrt (m ^ 2 + pz1 ^ 2 + px1 ^ 2 + py1 ^ 2)
  let vx2 := px1 / gamma2
  let vy2 := py1 / gamma2
  let vz2 := pz1 / gamma2
  let f2 := q * xi_step_size / (1 - pz1 / gamma2)
  let dpx2 := f2 * (Ex + vy2 * Bz - vz2 * By)
  let dpy2 := f2 * (Ey - vx2 * Bz + vz2 * Bx)
  let dpz2 := f2 * (Ez + vx2 * By - vy2 * Bx)
  let px2 := opx + dpx2 / 2
  let py2 := opy + dpy2 / 2
  let pz2 := opz + dpz2 / 2
  let gamma3 := Real.sqrt (m ^ 2 + pz2 ^ 2 + px2 ^ 2 + py2 ^ 2)
  let x_offt := prev_x_offt + px2 / (gamma3 - pz2) * xi_step_size
  let y_offt := prev_y_offt + py2 / (gamma3 - pz2) * xi_step_size
  ⟨x_offt, y_offt, opx + dpx2, opy + dpy2, opz + dpz2⟩

/-- The reflection tail of `move_smart_kernel` (lcode.py 463-484): every
boundary crossing mirrors the position and flips the sign of the corresponding
transverse momentum component; the second test of each axis examines the
already-mirrored position. -/
noncomputable def move_smart_reflect (reflect_boundary x_init y_init : ℝ)
    (o : PushOut) : PushOut :=
  let x0 := x_init + o.x_offt
  let y0 := y_init + o.y_offt
  let x1 := if reflect_boundary < x0 then 2 * reflect_boundary - x0 else x0
  let px1 := if reflect_boundary < x0 then -o.px else o.px
  let x2 := if x1 < -reflect_boundary then -(2 * reflect_boundary) - x1 else x1
  let px2 := if x1 < -reflect_boundary then -px1 else px1
  let y1 := if reflect_boundary < y0 then 2 * reflect_boundary - y0 else y0
  let py1 := if reflect_boundary < y0 then -o.py else o.py
  let y2 := if y1 < -reflect_boundary then -(2 * reflect_boundary) - y1 else y1
  let py2 := if y1 < -reflect_boundary then -py1 else py1
  ⟨x2 - x_init, y2 - y_init, px2, py2, o.pz⟩

/-- `move_smart_kernel` (lcode.py 409-484) for one particle: the pre-reflection
push followed by the reflection tail. -/
noncomputable def move_smart_one (xi_step_size reflect_boundary grid_step_size : ℝ)
    (grid_steps : ℕ)
    (m q x_init y_init prev_x_offt prev_y_offt estimated_x_offt estimated_y_offt
      opx opy opz : ℝ)
    (Ex_avg Ey_avg Ez_avg Bx_avg By_avg : ℤ → ℤ → ℝ) : PushOut :=
  move_smart_reflect reflect_boundary x_init y_init
    (move_smart_core xi_step_size grid_step_size grid_steps
      m q x_init y_init prev_x_offt prev_y_offt estimated_x_offt estimated_y_offt
      opx opy opz Ex_avg Ey_avg Ez_avg Bx_avg By_avg)

/-! ### Dirichlet field solver (`dst2d`, `DirichletSolver`, `calculate_RHS_Ez`,
`calculate_Ez`, lcode.py 48-124) -/

/-- The documented semantics of the external `cp.fft.rfft2` call on a real
`n x n` array: the plain 2D DFT
`F[k, l] = sum_{x,y} p[x,y] * exp(-2*pi*I*(k*x + l*y)/n)`
(only the top-left corner the code slices out is ever read, so the
real-to-complex packing is immaterial). -/
noncomputable def dft2 (n : ℕ) (p : ℕ → ℕ → ℝ) (k l : ℕ) : ℂ :=
  ∑ x ∈ Finset.range n, ∑ y ∈ Finset.range n,
    (p x y : ℂ) * Complex.exp (-(2 * Real.pi * Complex.I * ((k * x : ℕ) + (l * y : ℕ))) / n)

/-- The antisymmetric padding of `dst2d` (lcode.py 68-70): the `M x M` input
`a` sits in rows/columns `1..M` of a `(2M+2) x (2M+2)` array whose row `0`,
row `M+1` and their column counterparts stay zero, with `-fliplr(a)`,
`-flipud(a)` and `+fliplr(flipud(a))` filling the remaining three blocks. -/
def dstPad (M : ℕ) (a : ℕ → ℕ → ℝ) : ℕ → ℕ → ℝ := fun x y =>
  if 1 ≤ x ∧ x ≤ M ∧ 1 ≤ y ∧ y ≤ M then a (x - 1) (y - 1)
  else if 1 ≤ x ∧ x ≤ M ∧ M + 2 ≤ y ∧ y ≤ 2 * M + 1 then -(a (x - 1) (2 * M + 1 - y))
  else if M + 2 ≤ x ∧ x ≤ 2 * M + 1 ∧ 1 ≤ y ∧ y ≤ M then -(a (2 * M + 1 - x) (y - 1))
  else if M + 2 ≤ x ∧ x ≤ 2 * M + 1 ∧ M + 2 ≤ y ∧ y ≤ 2 * M + 1 then
    a (2 * M + 1 - x) (2 * M + 1 - y)
  else 0

/-- `dst2d` (lcode.py 58-73): 2D DST-I jury-rigged from the antisymmetrically
padded rFFT; output element `(k, l)` is `-Re(rfft2(p)[k+1, l+1])`. -/
noncomputable def dst2d (M : ℕ) (a : ℕ → ℕ → ℝ) (k l : ℕ) : ℝ :=
  -(dft2 (2 * M + 2) (dstPad M a) (k + 1) (l + 1)).re

/-- The eigenvalues `lamb[k] = 4/h^2 * sin(k*pi/(2*(N-1)))^2` (identical in
`DirichletSolver.__init__`, lcode.py 81-83, and `MixedSolver.__init__`,
lcode.py 182-183). -/
noncomputable def lamb (N : ℕ) (h : ℝ) (k : ℕ) : ℝ :=
  4 / h ^ 2 * Real.sin (k * Real.pi / (2 * ((N : ℝ) - 1))) ^ 2

/-- `DirichletSolver` multiplier (lcode.py 84-89): entry `(i, j)` of the
`(N-2) x (N-2)` array is `1/(2(N-1))^2 / (lamb[i+1] + lamb[j+1])` (the `k`
range starts at 1). -/
noncomputable def dirichlet_mul (N : ℕ) (h : ℝ) (i j : ℕ) : ℝ :=
  1 / (2 * ((N : ℝ) - 1)) ^ 2 / (lamb N h (i + 1) + lamb N h (j + 1))

/-- `cp.pad(inner, 1, constant, 0)`: the `(N-2) x (N-2)` inner array embedded
into the `N x N` grid with a zero perimeter. -/
def padInner (N : ℕ) (inner : ℕ → ℕ → ℝ) : ℤ → ℤ → ℝ := fun i j =>
  if 1 ≤ i ∧ i ≤ (N : ℤ) - 2 ∧ 1 ≤ j ∧ j ≤ (N : ℤ) - 2 then
    inner (i - 1).toNat (j - 1).toNat
  else 0

/-- `DirichletSolver.solve` (lcode.py 93-117): DST the RHS, multiply by `mul`,
DST again, zero-pad the perimeter back to `N x N`. -/
noncomputable def dirichlet_solve (N : ℕ) (h : ℝ) (rhs : ℕ → ℕ → ℝ) : ℤ → ℤ → ℝ :=
  padInner N (fun i j =>
    dst2d (N - 2) (fun k l => dst2d (N - 2) rhs k l * dirichlet_mul N h k l) i j)

/-- `calculate_RHS_Ez` (lcode.py 50-55): minus the centered divergence of
`(jx, jy)`, on the interior; element `(i, j)` of the smaller array reads grid
rows `i, i+2` and columns `j, j+2`. -/
noncomputable def calculate_RHS_Ez (grid_step_size : ℝ) (jx jy : ℤ → ℤ → ℝ) : ℕ → ℕ → ℝ := fun i j =>
  -((jx ((i : ℤ) + 2) ((j : ℤ) + 1) - jx (i : ℤ) ((j : ℤ) + 1))
      + (jy ((i : ℤ) + 1) ((j : ℤ) + 2) - jy ((i : ℤ) + 1) (j : ℤ)))
    / (grid_step_size * 2)

/-- `calculate_Ez` (lcode.py 120-124). -/
noncomputable def calculate_Ez (N : ℕ) (grid_step_size : ℝ) (jx jy : ℤ → ℤ → ℝ) :
    ℤ → ℤ → ℝ :=
  dirichlet_solve N grid_step_size (calculate_RHS_Ez grid_step_size jx jy)

/-! ### Mixed-boundary field solver (`MixedSolver`,
`calculate_RHS_Ex_Ey_Bx_By`, `calculate_Ex_Ey_Bx_By`, lcode.py 127-233) -/

/-- Modelled from the documented semantics of the external
`scipy.fftpack.dctn(type=1)` call: the 1D DCT-I kernel weight of input index
`n` against output index `k` on length-`M` data,
`X[k] = x[0] + (-1)^k x[M-1] + 2 * sum_{n=1}^{M-2} x[n] cos(pi*n*k/(M-1))`.
`idctn(type=1)` has the same kernel (DCT-I is self-inverse up to the
`(2(M-1))^2` factor that `MixedSolver`'s `mul` divides out). -/
noncomputable def dct1_w (M n k : ℕ) : ℝ :=
  (if n = 0 ∨ n = M - 1 then 1 else 2) * Real.cos (n * k * Real.pi / ((M : ℝ) - 1))

/-- Modelled from the spec of `scipy.fftpack.dctn(a, type=1)` on an `M x M`
array: the separable product of 1D DCT-I kernels. -/
noncomputable def dctn1 (M : ℕ) (a : ℕ → ℕ → ℝ) (k l : ℕ) : ℝ :=
  ∑ x ∈ Finset.range M, ∑ y ∈ Finset.range M, a x y * dct1_w M x k * dct1_w M y l

/-- `MixedSolver` multiplier (lcode.py 184-189):
`mul[i,j] = 1/(lamb[i+1] + lamb[j+1] + s)`, then divided by
`(2(N-1))^2 / (lamb[i+1] + lamb[j+1])`. -/
noncomputable def mixed_mul (N : ℕ) (h s : ℝ) (i j : ℕ) : ℝ :=
  1 / (lamb N h (i + 1) + lamb N h (j + 1) + s)
    / ((2 * ((N : ℝ) - 1)) ^ 2 / (lamb N h (i + 1) + lamb N h (j + 1)))

/-- `MixedSolver.solve` (lcode.py 191-219): DCT the RHS, multiply by `mul`,
inverse DCT, zero-pad the perimeter.  (The `inner_error` residual print of
lines 215-218 is a diagnostic side effect and is not part of the value.) -/
noncomputable def mixed_solve (N : ℕ) (h s : ℝ) (rhs : ℕ → ℕ → ℝ) : ℤ → ℤ → ℝ :=
  padInner N (fun i j =>
    dctn1 (N - 2) (fun k l => dctn1 (N - 2) rhs k l * mixed_mul N h s k l) i j)

/-- The `dx` component of `dx_dy` (lcode.py 131-136). -/
noncomputable def dx_dy_x (arr : ℤ → ℤ → ℝ) (h2 : ℝ) : ℕ → ℕ → ℝ := fun i j =>
  (arr ((i : ℤ) + 2) ((j : ℤ) + 1) - arr (i : ℤ) ((j : ℤ) + 1)) / h2

/-- The `dy` component of `dx_dy` (lcode.py 131-136). -/
noncomputable def dx_dy_y (arr : ℤ → ℤ → ℝ) (h2 : ℝ) : ℕ → ℕ → ℝ := fun i j =>
  (arr ((i : ℤ) + 1) ((j : ℤ) + 2) - arr ((i : ℤ) + 1) (j : ℤ)) / h2

/-- `Ex_rhs` of `calculate_RHS_Ex_Ey_Bx_By` (lcode.py 139-157):
`-((dro_dx - djx_dxi) - Ex_avg[1:-1,1:-1] * subtraction_trick)`. -/
noncomputable def Ex_rhs_of (grid_step_size xi_step_size s : ℝ)
    (Ex_avg beam_ro ro jx jx_prev : ℤ → ℤ → ℝ) : ℕ → ℕ → ℝ := fun i j =>
  -((dx_dy_x (fun r c => ro r c + beam_ro r c) (grid_step_size * 2) i j
      - (jx_prev ((i : ℤ) + 1) ((j : ℤ) + 1) - jx ((i : ℤ) + 1) ((j : ℤ) + 1)) / xi_step_size)
    - Ex_avg ((i : ℤ) + 1) ((j : ℤ) + 1) * s)

/-- `Ey_rhs` of `calculate_RHS_Ex_Ey_Bx_By`. -/
noncomputable def Ey_rhs_of (grid_step_size xi_step_size s : ℝ)
    (Ey_avg beam_ro ro jy jy_prev : ℤ → ℤ → ℝ) : ℕ → ℕ → ℝ := fun i j =>
  -((dx_dy_y (fun r c => ro r c + beam_ro r c) (grid_step_size * 2) i j
      - (jy_prev ((i : ℤ) + 1) ((j : ℤ) + 1) - jy ((i : ℤ) + 1) ((j : ℤ) + 1)) / xi_step_size)
    - Ey_avg ((i : ℤ) + 1) ((j : ℤ) + 1) * s)

/-- `Bx_rhs` of `calculate_RHS_Ex_Ey_Bx_By`:
`+((djz_dy - djy_dxi) + Bx_avg[1:-1,1:-1] * subtraction_trick)`. -/
noncomputable def Bx_rhs_of (grid_step_size xi_step_size s : ℝ)
    (Bx_avg beam_ro jz jy jy_prev : ℤ → ℤ → ℝ) : ℕ → ℕ → ℝ := fun i j =>
  (dx_dy_y (fun r c => jz r c + beam_ro r c) (grid_step_size * 2) i j
      - (jy_prev ((i : ℤ) + 1) ((j : ℤ) + 1) - jy ((i : ℤ) + 1) ((j : ℤ) + 1)) / xi_step_size)
    + Bx_avg ((i : ℤ) + 1) ((j : ℤ) + 1) * s

/-- `By_rhs` of `calculate_RHS_Ex_Ey_Bx_By`:
`-((djz_dx - djx_dxi) - By_avg[1:-1,1:-1] * subtraction_trick)`. -/
noncomputable def By_rhs_of (grid_step_size xi_step_size s : ℝ)
    (By_avg beam_ro jz jx jx_prev : ℤ → ℤ → ℝ) : ℕ → ℕ → ℝ := fun i j =>
  -((dx_dy_x (fun r c => jz r c + beam_ro r c) (grid_step_size * 2) i j
      - (jx_prev ((i : ℤ) + 1) ((j : ℤ) + 1) - jx ((i : ℤ) + 1) ((j : ℤ) + 1)) / xi_step_size)
    - By_avg ((i : ℤ) + 1) ((j : ℤ) + 1) * s)

/-- Transpose of a grid array (`.T`). -/
def trZ (a : ℤ → ℤ → ℝ) : ℤ → ℤ → ℝ := fun i j => a j i

/-- Transpose of an interior-sized array (`.T`). -/
def trN (a : ℕ → ℕ → ℝ) : ℕ → ℕ → ℝ := fun i j => a j i

/-- The `Ex` component of `calculate_Ex_Ey_Bx_By` (lcode.py 222-233):
`mixed_solver.solve(Ex_rhs.T).T`. -/
noncomputable def calculate_Ex (N : ℕ) (grid_step_size xi_step_size s : ℝ)
    (Ex_avg beam_ro ro jx jx_prev : ℤ → ℤ → ℝ) : ℤ → ℤ → ℝ :=
  trZ (mixed_solve N grid_step_size s
    (trN (Ex_rhs_of grid_step_size xi_step_size s Ex_avg beam_ro ro jx jx_prev)))

/-- The `Ey` component of `calculate_Ex_Ey_Bx_By`: `mixed_solver.solve(Ey_rhs)`. -/
noncomputable def calculate_Ey (N : ℕ) (grid_step_size xi_step_size s : ℝ)
    (Ey_avg beam_ro ro jy jy_prev : ℤ → ℤ → ℝ) : ℤ → ℤ → ℝ :=
  mixed_solve N grid_step_size s
    (Ey_rhs_of grid_step_size xi_step_size s Ey_avg beam_ro ro jy jy_prev)

/-- The `Bx` component of `calculate_Ex_Ey_Bx_By`: `mixed_solver.solve(Bx_rhs)`. -/
noncomputable def calculate_Bx (N : ℕ) (grid_step_size xi_step_size s : ℝ)
    (Bx_avg beam_ro jz jy jy_prev : ℤ → ℤ → ℝ) : ℤ → ℤ → ℝ :=
  mixed_solve N grid_step_size s
    (Bx_rhs_of grid_step_size xi_step_size s Bx_avg beam_ro jz jy jy_prev)

/-- The `By` component of `calculate_Ex_Ey_Bx_By`:
`mixed_solver.solve(By_rhs.T).T`. -/
noncomputable def calculate_By (N : ℕ) (grid_step_size xi_step_size s : ℝ)
    (By_avg beam_ro jz jx jx_prev : ℤ → ℤ → ℝ) : ℤ → ℤ → ℝ :=
  trZ (mixed_solve N grid_step_size s
    (trN (By_rhs_of grid_step_size xi_step_size s By_avg beam_ro jz jx jx_prev)))

/-! ### The step driver (`GPUMonolith.step`, lcode.py 636-728) -/

/-- The slice state bundle (`GPUArrays` built at the end of `step` / `init`):
particle arrays indexed by the coarse lattice, grid arrays by cell. -/
structure PlasmaState where
  x_offt : ℕ → ℕ → ℝ
  y_offt : ℕ → ℕ → ℝ
  px : ℕ → ℕ → ℝ
  py : ℕ → ℕ → ℝ
  pz : ℕ → ℕ → ℝ
  Ex : ℤ → ℤ → ℝ
  Ey : ℤ → ℤ → ℝ
  Ez : ℤ → ℤ → ℝ
  Bx : ℤ → ℤ → ℝ
  By : ℤ → ℤ → ℝ
  Bz : ℤ → ℤ → ℝ
  ro : ℤ → ℤ → ℝ
  jx : ℤ → ℤ → ℝ
  jy : ℤ → ℤ → ℝ
  jz : ℤ → ℤ → ℝ

/-- The immutable data a constructed `GPUMonolith` carries into `step`:
configuration scalars, the initial particle lattice, the virtualization
table, and the ion background. `Nf` is the fine lattice side
(`A_weights.shape[0]`). -/
structure Monolith where
  grid_steps : ℕ
  Nf : ℕ
  grid_step_size : ℝ
  xi_step_size : ℝ
  subtraction_trick : ℝ
  reflect_boundary : ℝ
  virtplasma_smallness_factor : ℝ
  x_init : ℕ → ℕ → ℝ
  y_init : ℕ → ℕ → ℝ
  m : ℕ → ℕ → ℝ
  q : ℕ → ℕ → ℝ
  virt_params : VirtParams
  ro_initial : ℤ → ℤ → ℝ

/-- One full `move_smart` call (lcode.py 487-507) lifted over the particle
arrays: per particle, `move_smart_one` with the monolith's per-particle data
and the given previous/estimated offsets, previous momenta and field arrays. -/
noncomputable def move_smart_arrays (g : Monolith)
    (prev_x_offt prev_y_offt est_x_offt est_y_offt px_prev py_prev pz_prev : ℕ → ℕ → ℝ)
    (Ex_avg Ey_avg Ez_avg Bx_avg By_avg : ℤ → ℤ → ℝ) : ℕ → ℕ → PushOut :=
  fun i j => move_smart_one g.xi_step_size g.reflect_boundary g.grid_step_size g.grid_steps
    (g.m i j) (g.q i j) (g.x_init i j) (g.y_init i j)
    (prev_x_offt i j) (prev_y_offt i j) (est_x_offt i j) (est_y_offt i j)
    (px_prev i j) (py_prev i j) (pz_prev i j)
    Ex_avg Ey_avg Ez_avg Bx_avg By_avg

/-- The coarse-array view of a per-particle push result, as handed to
`deposit`. -/
noncomputable def pushCoarse (g : Monolith) (s : ℕ → ℕ → PushOut) : CoarseArrays :=
  ⟨fun i j => (s i j).x_offt, fun i j => (s i j).y_offt, g.m, g.q,
    fun i j => (s i j).px, fun i j => (s i j).py, fun i j => (s i j).pz⟩

namespace GPUMonolith

/-- `GPUMonolith.step` (lcode.py 636-728): predictor estimate, then three
full push / deposit / field-solve passes; fields are averaged with the
previous slice's between passes; the returned state carries the third push,
the final deposit, and the last (non-averaged) field solves, with `Bz = 0`. -/
noncomputable def step (g : Monolith) (beam_ro : ℤ → ℤ → ℝ) (prev : PlasmaState) :
    PlasmaState :=
  -- lcode.py 645-649: move_estimate_wo_fields
  let est := fun i j => move_estimate_wo_fields_one g.xi_step_size g.reflect_boundary
    (g.m i j) (g.x_init i j) (g.y_init i j) (prev.x_offt i j) (prev.y_offt i j)
    (prev.px i j) (prev.py i j) (prev.pz i j)
  -- lcode.py 651-659: first move_smart, with the previous (un-averaged) fields
  let s1 := move_smart_arrays g prev.x_offt prev.y_offt
    (fun i j => (est i j).x_offt) (fun i j => (est i j).y_offt)
    prev.px prev.py prev.pz prev.Ex prev.Ey prev.Ez prev.Bx prev.By
  -- lcode.py 660-664: first deposit
  let ca1 := pushCoarse g s1
  let ro1 := deposit_ro g.Nf g.grid_steps g.grid_step_size g.virt_params ca1
    g.virtplasma_smallness_factor g.ro_initial
  let jx1 := deposit_jx g.Nf g.grid_steps g.grid_step_size g.virt_params ca1
    g.virtplasma_smallness_factor
  let jy1 := deposit_jy g.Nf g.grid_steps g.grid_step_size g.virt_params ca1
    g.virtplasma_smallness_factor
  let jz1 := deposit_jz g.Nf g.grid_steps g.grid_step_size g.virt_params ca1
    g.virtplasma_smallness_factor
  -- lcode.py 666-673: first field solve, from the previous fields/currents
  let Ex1 := calculate_Ex g.grid_steps g.grid_step_size g.xi_step_size g.subtraction_trick
    prev.Ex beam_ro ro1 jx1 prev.jx
  let Ey1 := calculate_Ey g.grid_steps g.grid_step_size g.xi_step_size g.subtraction_trick
    prev.Ey beam_ro ro1 jy1 prev.jy
  let Bx1 := calculate_Bx g.grid_steps g.grid_step_size g.xi_step_size g.subtraction_trick
    prev.Bx beam_ro jz1 jy1 prev.jy
  let By1 := calculate_By g.grid_steps g.grid_step_size g.xi_step_size g.subtraction_trick
    prev.By beam_ro jz1 jx1 prev.jx
  let Ez1 := calculate_Ez g.grid_steps g.grid_step_size jx1 jy1
  -- lcode.py 675-679: average with the previous slice's fields
  let Ex_avg1 := fun r c => (Ex1 r c + prev.Ex r c) / 2
  let Ey_avg1 := fun r c => (Ey1 r c + prev.Ey r c) / 2
  let Ez_avg1 := fun r c => (Ez1 r c + prev.Ez r c) / 2
  let Bx_avg1 := fun r c => (Bx1 r c + prev.Bx r c) / 2
  let By_avg1 := fun r c => (By1 r c + prev.By r c) / 2
  -- lcode.py 681-688: second move_smart, from the PREVIOUS offsets/momenta,
  -- with the first-pass offsets only as half-step estimates
  let s2 := move_smart_arrays g prev.x_offt prev.y_offt
    (fun i j => (s1 i j).x_offt) (fun i j => (s1 i j).y_offt)
    prev.px prev.py prev.pz Ex_avg1 Ey_avg1 Ez_avg1 Bx_avg1 By_avg1
  -- lcode.py 689-693: second deposit
  let ca2 := pushCoarse g s2
  let ro2 := deposit_ro g.Nf g.grid_steps g.grid_step_size g.virt_params ca2
    g.virtplasma_smallness_factor g.ro_initial
  let jx2 := deposit_jx g.Nf g.grid_steps g.grid_step_size g.virt_params ca2
    g.virtplasma_smallness_factor
  let jy2 := deposit_jy g.Nf g.grid_steps g.grid_step_size g.virt_params ca2
    g.virtplasma_smallness_factor
  let jz2 := deposit_jz g.Nf g.grid_steps g.grid_step_size g.virt_params ca2
    g.virtplasma_smallness_factor
  -- lcode.py 694-699: second field solve, from the averaged fields
  let Ex2 := calculate_Ex g.grid_steps g.grid_step_size g.xi_step_size g.subtraction_trick
    Ex_avg1 beam_ro ro2 jx2 prev.jx
  let Ey2 := calculate_Ey g.grid_steps g.grid_step_size g.xi_step_size g.subtraction_trick
    Ey_avg1 beam_ro ro2 jy2 prev.jy
  let Bx2 := calculate_Bx g.grid_steps g.grid_step_size g.xi_step_size g.subtraction_trick
    Bx_avg1 beam_ro jz2 jy2 prev.jy
  let By2 := calculate_By g.grid_steps g.grid_step_size g.xi_step_size g.subtraction_trick
    By_avg1 beam_ro jz2 jx2 prev.jx
  let Ez2 := calculate_Ez g.grid_steps g.grid_step_size jx2 jy2
  -- lcode.py 701-705: average again
  let Ex_avg2 := fun r c => (Ex2 r c + prev.Ex r c) / 2
  let Ey_avg2 := fun r c => (Ey2 r c + prev.Ey r c) / 2
  let Ez_avg2 := fun r c => (Ez2 r c + prev.Ez r c) / 2
  let Bx_avg2 := fun r c => (Bx2 r c + prev.Bx r c) / 2
  let By_avg2 := fun r c => (By2 r c + prev.By r c) / 2
  -- lcode.py 707-714: third move_smart, again from the PREVIOUS
  -- offsets/momenta
  let s3 := move_smart_arrays g prev.x_offt prev.y_offt
    (fun i j => (s2 i j).x_offt) (fun i j => (s2 i j).y_offt)
    prev.px prev.py prev.pz Ex_avg2 Ey_avg2 Ez_avg2 Bx_avg2 By_avg2
  -- lcode.py 715-718: final deposit
  let ca3 := pushCoarse g s3
  let ro3 := deposit_ro g.Nf g.grid_steps g.grid_step_size g.virt_params ca3
    g.virtplasma_smallness_factor g.ro_initial
  let jx3 := deposit_jx g.Nf g.grid_steps g.grid_step_size g.virt_params ca3
    g.virtplasma_smallness_factor
  let jy3 := deposit_jy g.Nf g.grid_steps g.grid_step_size g.virt_params ca3
    g.virtplasma_smallness_factor
  let jz3 := deposit_jz g.Nf g.grid_steps g.grid_step_size g.virt_params ca3
    g.virtplasma_smallness_factor
  -- lcode.py 722-728: the new state
  { x_offt := fun i j => (s3 i j).x_offt, y_offt := fun i j => (s3 i j).y_offt,
    px := fun i j => (s3 i j).px, py := fun i j => (s3 i j).py,
    pz := fun i j => (s3 i j).pz,
    Ex := Ex2, Ey := Ey2, Ez := Ez2, Bx := Bx2, By := By2,
    Bz := fun _ _ => 0,
    ro := ro3, jx := jx3, jy := jy3, jz := jz3 }

end GPUMonolith

/-- Comparison definition for the Step Driver's data flow, written from the
specification's numbered sequence (spec 4.6): 1. predictor push from the
previous state; 2. full push using previous fields and PREVIOUS
offsets/momenta; 3.-4. deposit and solve trial fields from trial sources and
previous-slice currents; 5. arithmetic mean with previous fields; 6. full push
again from PREVIOUS offsets/momenta (trial offsets only as half-step
estimates); 7.-8. deposit and solve again, averaging again with the previous
slice; 9. third full push from PREVIOUS offsets/momenta; 10. final deposit.
The emitted state carries the last-computed NON-averaged fields, zero `Bz`,
the final deposit, and the third push's offsets/momenta. -/
noncomputable def step_spec (g : Monolith) (beam_ro : ℤ → ℤ → ℝ) (prev : PlasmaState) :
    PlasmaState :=
  -- 1. predictor
  let est := fun i j => move_estimate_wo_fields_one g.xi_step_size g.reflect_boundary
    (g.m i j) (g.x_init i j) (g.y_init i j) (prev.x_offt i j) (prev.y_offt i j)
    (prev.px i j) (prev.py i j) (prev.pz i j)
  -- 2. trial push: previous offsets/momenta, previous (un-averaged) fields
  let trial := move_smart_arrays g prev.x_offt prev.y_offt
    (fun i j => (est i j).x_offt) (fun i j => (est i j).y_offt)
    prev.px prev.py prev.pz prev.Ex prev.Ey prev.Ez prev.Bx prev.By
  -- 3. deposit the trial state
  let caT := pushCoarse g trial
  let roT := deposit_ro g.Nf g.grid_steps g.grid_step_size g.virt_params caT
    g.virtplasma_smallness_factor g.ro_initial
  let jxT := deposit_jx g.Nf g.grid_steps g.grid_step_size g.virt_params caT
    g.virtplasma_smallness_factor
  let jyT := deposit_jy g.Nf g.grid_steps g.grid_step_size g.virt_params caT
    g.virtplasma_smallness_factor
  let jzT := deposit_jz g.Nf g.grid_steps g.grid_step_size g.virt_params caT
    g.virtplasma_smallness_factor
  -- 4. trial fields, previous fields/currents feeding the xi-derivative and
  -- subtraction terms
  let ExT := calculate_Ex g.grid_steps g.grid_step_size g.xi_step_size g.subtraction_trick
    prev.Ex beam_ro roT jxT prev.jx
  let EyT := calculate_Ey g.grid_steps g.grid_step_size g.xi_step_size g.subtraction_trick
    prev.Ey beam_ro roT jyT prev.jy
  let BxT := calculate_Bx g.grid_steps g.grid_step_size g.xi_step_size g.subtraction_trick
    prev.Bx beam_ro jzT jyT prev.jy
  let ByT := calculate_By g.grid_steps g.grid_step_size g.xi_step_size g.subtraction_trick
    prev.By beam_ro jzT jxT prev.jx
  let EzT := calculate_Ez g.grid_steps g.grid_step_size jxT jyT
  -- 5. corrector input fields: arithmetic mean with the previous slice
  let ExA := fun r c => (ExT r c + prev.Ex r c) / 2
  let EyA := fun r c => (EyT r c + prev.Ey r c) / 2
  let EzA := fun r c => (EzT r c + prev.Ez r c) / 2
  let BxA := fun r c => (BxT r c + prev.Bx r c) / 2
  let ByA := fun r c => (ByT r c + prev.By r c) / 2
  -- 6. second-iterate push: corrector fields, PREVIOUS offsets/momenta (not
  -- trial), trial offsets only as half-step estimates
  let second := move_smart_arrays g prev.x_offt prev.y_offt
    (fun i j => (trial i j).x_offt) (fun i j => (trial i j).y_offt)
    prev.px prev.py prev.pz ExA EyA EzA BxA ByA
  -- 7. deposit again
  let caS := pushCoarse g second
  let roS := deposit_ro g.Nf g.grid_steps g.grid_step_size g.virt_params caS
    g.virtplasma_smallness_factor g.ro_initial
  let jxS := deposit_jx g.Nf g.grid_steps g.grid_step_size g.virt_params caS
    g.virtplasma_smallness_factor
  let jyS := deposit_jy g.Nf g.grid_steps g.grid_step_size g.virt_params caS
    g.virtplasma_smallness_factor
  let jzS := deposit_jz g.Nf g.grid_steps g.grid_step_size g.virt_params caS
    g.virtplasma_smallness_factor
  -- 8. solve again, with the corrector-averaged fields as the feedback
  -- baseline; average once more with the previous slice
  let ExS := calculate_Ex g.grid_steps g.grid_step_size g.xi_step_size g.subtraction_trick
    ExA beam_ro roS jxS prev.jx
  let EyS := calculate_Ey g.grid_steps g.grid_step_size g.xi_step_size g.subtraction_trick
    EyA beam_ro roS jyS prev.jy
  let BxS := calculate_Bx g.grid_steps g.grid_step_size g.xi_step_size g.subtraction_trick
    BxA beam_ro jzS jyS prev.jy
  let ByS := calculate_By g.grid_steps g.grid_step_size g.xi_step_size g.subtraction_trick
    ByA beam_ro jzS jxS prev.jx
  let EzS := calculate_Ez g.grid_steps g.grid_step_size jxS jyS
  let ExA2 := fun r c => (ExS r c + prev.Ex r c) / 2
  let EyA2 := fun r c => (EyS r c + prev.Ey r c) / 2
  let EzA2 := fun r c => (EzS r c + prev.Ez r c) / 2
  let BxA2 := fun r c => (BxS r c + prev.Bx r c) / 2
  let ByA2 := fun r c => (ByS r c + prev.By r c) / 2
  -- 9. third push: latest averaged fields, PREVIOUS offsets/momenta
  let final := move_smart_arrays g prev.x_offt prev.y_offt
    (fun i j => (second i j).x_offt) (fun i j => (second i j).y_offt)
    prev.px prev.py prev.pz ExA2 EyA2 EzA2 BxA2 ByA2
  -- 10. final deposit
  let caF := pushCoarse g final
  let roF := deposit_ro g.Nf g.grid_steps g.grid_step_size g.virt_params caF
    g.virtplasma_smallness_factor g.ro_initial
  let jxF := deposit_jx g.Nf g.grid_steps g.grid_step_size g.virt_params caF
    g.virtplasma_smallness_factor
  let jyF := deposit_jy g.Nf g.grid_steps g.grid_step_size g.virt_params caF
    g.virtplasma_smallness_factor
  let jzF := deposit_jz g.Nf g.grid_steps g.grid_step_size g.virt_params caF
    g.virtplasma_smallness_factor
  -- the new state: last-computed NON-averaged fields, final sources, final
  -- particle arrays
  { x_offt := fun i j => (final i j).x_offt, y_offt := fun i j => (final i j).y_offt,
    px := fun i j => (final i j).px, py := fun i j => (final i j).py,
    pz := fun i j => (final i j).pz,
    Ex := ExS, Ey := EyS, Ez := EzS, Bx := BxS, By := ByS,
    Bz := fun _ _ => 0,
    ro := roF, jx := jxF, jy := jyF, jz := jzF }

/-- The single zero-field push: free streaming from the previous offsets with
the previous momenta, followed by the `move_smart` reflection tail.  This is
what each of the three `move_smart` passes of `step` computes when every
field array it receives is zero (see `move_smart_one_zero_fields`). -/
noncomputable def free_stream_push (g : Monolith) (prev : PlasmaState) :
    ℕ → ℕ → PushOut := fun i j =>
  move_smart_reflect g.reflect_boundary (g.x_init i j) (g.y_init i j)
    ⟨prev.x_offt i j + prev.px i j /
        (Real.sqrt ((g.m i j) ^ 2 + (prev.pz i j) ^ 2 + (prev.px i j) ^ 2 + (prev.py i j) ^ 2)
          - prev.pz i j) * g.xi_step_size,
     prev.y_offt i j + prev.py i j /
        (Real.sqrt ((g.m i j) ^ 2 + (prev.pz i j) ^ 2 + (prev.px i j) ^ 2 + (prev.py i j) ^ 2)
          - prev.pz i j) * g.xi_step_size,
     prev.px i j, prev.py i j, prev.pz i j⟩

/-- Concrete 7x7 monolith with unit steps, boundary `1/2`, a chargeless
plasma (`q = 0`, `m = 3`) and zero ion background, for concrete `step`
instances. -/
noncomputable def gW : Monolith :=
  ⟨7, 1, 1, 1, 1, 1 / 2, 1,
    fun _ _ => 0, fun _ _ => 0, fun _ _ => 3, fun _ _ => 0,
    vpTriv, fun _ _ => 0⟩

/-- All-zero previous slice state. -/
noncomputable def prevW : PlasmaState :=
  ⟨fun _ _ => 0, fun _ _ => 0, fun _ _ => 0, fun _ _ => 0, fun _ _ => 0,
    fun _ _ => 0, fun _ _ => 0, fun _ _ => 0, fun _ _ => 0, fun _ _ => 0,
    fun _ _ => 0, fun _ _ => 0, fun _ _ => 0, fun _ _ => 0, fun _ _ => 0⟩

/-- Previous slice state with zero fields and currents but transverse momentum
`px = 4` on every particle (`gamma_m = 5` with `m = 3`). -/
noncomputable def prevCex : PlasmaState :=
  ⟨fun _ _ => 0, fun _ _ => 0, fun _ _ => 4, fun _ _ => 0, fun _ _ => 0,
    fun _ _ => 0, fun _ _ => 0, fun _ _ => 0, fun _ _ => 0, fun _ _ => 0,
    fun _ _ => 0, fun _ _ => 0, fun _ _ => 0, fun _ _ => 0, fun _ _ => 0⟩

/-! ### Initialization checks (`GPUMonolith.__init__` lcode.py 542-558,
`GPUMonolith.initial_deposition` lcode.py 620-634) -/

/-- The configuration fields read by the `GPUMonolith.__init__` assertions. -/
structure PyConfig where
  grid_steps : ℕ
  reflect_padding_steps : ℕ
  plasma_coarseness : ℕ

/-- The assertion block of `GPUMonolith.__init__` (lcode.py 546-558) as the
precondition for construction to succeed: with `Nc = int(sqrt(pl_q.size))`,
every particle attribute array has `Nc**2` elements, the reflect padding
exceeds `plasma_coarseness + 1`, and the grid step count is odd. -/
def gpu_monolith_init_ok (cfg : PyConfig)
    (x_init y_init x_offt y_offt px py pz m q : List ℚ) : Prop :=
  Nat.sqrt q.length ^ 2 = x_init.length ∧ Nat.sqrt q.length ^ 2 = y_init.length ∧
  Nat.sqrt q.length ^ 2 = x_offt.length ∧ Nat.sqrt q.length ^ 2 = y_offt.length ∧
  Nat.sqrt q.length ^ 2 = px.length ∧ Nat.sqrt q.length ^ 2 = py.length ∧
  Nat.sqrt q.length ^ 2 = pz.length ∧
  Nat.sqrt q.length ^ 2 = m.length ∧ Nat.sqrt q.length ^ 2 = q.length ∧
  cfg.plasma_coarseness + 1 < cfg.reflect_padding_steps ∧
  cfg.grid_steps % 2 = 1

/-- The assertion block of `GPUMonolith.initial_deposition` (lcode.py 622-625):
`np.array_equiv(pl_px, 0)` etc., i.e. all initial momenta vanish. -/
def initial_deposition_ok (px py pz : List ℚ) : Prop :=
  (∀ v ∈ px, v = 0) ∧ (∀ v ∈ py, v = 0) ∧ (∀ v ∈ pz, v = 0)

/-- A deliberately broken configuration (even grid step count) for the
fail-fast witness. -/
def cfgBad : PyConfig := ⟨10, 5, 3⟩

/-- The spec's five-point discrete Laplace operator with grid step `h`
(written from the spec's `ΔEz` wording, for comparison with the solver). -/
noncomputable def lap5 (h : ℝ) (u : ℤ → ℤ → ℝ) : ℤ → ℤ → ℝ := fun i j =>
  (u (i + 1) j + u (i - 1) j + u i (j + 1) + u i (j - 1) - 4 * u i j) / h ^ 2

end LCode

namespace LCode

/-! ### Theorems about the virtualization table -/

theorem searchsorted_le (g : ℕ → ℚ) (n : ℕ) (v : ℚ) : searchsorted_count g n v ≤ n := by
  calc ((Finset.range n).filter (fun j => g j < v)).card
      ≤ (Finset.range n).card := Finset.card_filter_le _ _
    _ = n := Finset.card_range n

theorem searchsorted_lt_iff (g : ℕ → ℚ) (hg : StrictMono g) (n : ℕ) (v : ℚ) :
    ∀ j < n, (g j < v ↔ j < searchsorted_count g n v) := by
  induction n with
  | zero => intro j hj; omega
  | succ n ih =>
    intro j hj
    by_cases hn : g n < v
    · have hfull : (Finset.range (n + 1)).filter (fun j => g j < v) = Finset.range (n + 1) := by
        apply Finset.filter_true_of_mem
        intro x hx
        rcases Nat.lt_succ_iff_lt_or_eq.mp (Finset.mem_range.mp hx) with h | h
        · exact lt_trans (hg h) hn
        · exact h ▸ hn
      have hcard : searchsorted_count g (n + 1) v = n + 1 := by
        rw [searchsorted_count, hfull, Finset.card_range]
      constructor
      · intro _; omega
      · intro _
        rcases Nat.lt_succ_iff_lt_or_eq.mp hj with h | h
        · exact lt_trans (hg h) hn
        · exact h ▸ hn
    · have hsame : searchsorted_count g (n + 1) v = searchsorted_count g n v := by
        rw [searchsorted_count, searchsorted_count, Finset.range_succ,
          Finset.filter_insert, if_neg hn]
      rcases Nat.lt_succ_iff_lt_or_eq.mp hj with h | h
      · rw [hsame]; exact ih j h
      · subst h
        rw [hsame]
        have := searchsorted_le g j v
        constructor
        · intro h'; exact absurd h' hn
        · intro h'; omega

theorem coarse_grid_strictMono (steps : ℕ) (step_size : ℚ) (coarseness : ℕ)
    (hs : 0 < step_size) (hc : 1 ≤ coarseness) :
    StrictMono (coarse_grid_val steps step_size coarseness) := by
  intro a b hab
  unfold coarse_grid_val
  have hpos : 0 < step_size * coarseness := by
    apply mul_pos hs
    exact_mod_cast Nat.lt_of_lt_of_le Nat.zero_lt_one hc
  have : (a : ℚ) < b := by exact_mod_cast hab
  nlinarith

/-- One-axis core of the weight-normalization contract: the two influence
coefficients of any position sum to `1`, in every boundary-fix-up case. -/
theorem influence_sum (steps : ℕ) (step_size : ℚ) (coarseness : ℕ) (v : ℚ)
    (hs : 0 < step_size) (hc : 1 ≤ coarseness) (hn : 1 ≤ coarse_half steps coarseness) :
    influence_prev steps step_size coarseness v + influence_next steps step_size coarseness v = 1 := by
  have hmono := coarse_grid_strictMono steps step_size coarseness hs hc
  set g := coarse_grid_val steps step_size coarseness with hgdef
  set n := coarse_count steps coarseness with hndef
  have hn1 : 1 ≤ n := by
    rw [hndef]
    unfold coarse_count
    omega
  unfold influence_prev influence_next
  by_cases htop : g (n - 1) ≤ v
  · rw [if_pos htop, if_pos htop]; norm_num
  · rw [if_neg htop, if_neg htop]
    by_cases hbot : v ≤ g 0
    · rw [if_pos hbot, if_pos hbot]; norm_num
    · rw [if_neg hbot, if_neg hbot]
      -- interior case: `g 0 < v < g (n-1)`
      have hb : g 0 < v := lt_of_not_le hbot
      have ht : v < g (n - 1) := lt_of_not_le htop
      set idx := searchsorted_count g n v with hidx
      have hiff := searchsorted_lt_iff g hmono n v
      have hidx_pos : 0 < idx := by
        have := (hiff 0 (by omega)).mp hb
        omega
      have hidx_le : idx ≤ n - 1 := by
        by_contra hcon
        have h1 : n - 1 < idx := by omega
        have := (hiff (n - 1) (by omega)).mpr h1
        exact absurd this (not_lt.mpr (le_of_lt ht))
      have hprev : indices_prev_of g n v = idx - 1 := by
        unfold indices_prev_of
        rw [← hidx]
        omega
      have hnext : indices_next_of g n v = idx := by
        unfold indices_next_of
        rw [← hidx]
        omega
      rw [hprev, hnext]
      have hstep : g idx - g (idx - 1) = step_size * coarseness := by
        rw [hgdef]
        unfold coarse_grid_val
        have : ((idx - 1 : ℕ) : ℚ) = (idx : ℚ) - 1 := by
          have : (1 : ℕ) ≤ idx := hidx_pos
          push_cast [Nat.cast_sub this]
          ring
        rw [this]
        ring
      have hne : step_size * coarseness ≠ 0 := by
        apply ne_of_gt
        apply mul_pos hs
        exact_mod_cast Nat.lt_of_lt_of_le Nat.zero_lt_one hc
      field_simp
      linarith [hstep]

/-- C1.  For every fine-lattice point of the virtualization table built by
`plasma_make` (odd grid step count, integer coarseness and fineness at least 1,
positive grid step, and a nonempty coarse lattice, without which `plasma_make`
raises an `IndexError` before producing any table), the four bilinear corner
weights satisfy `A + B + C + D = 1`, including every boundary-clamped fine
point handled by the influence fix-up. -/
theorem virtualization_weights_sum_to_one
    (steps : ℕ) (step_size : ℚ) (coarseness fineness fi fj : ℕ)
    (_hodd : Odd steps) (hc : 1 ≤ coarseness) (_hf : 1 ≤ fineness)
    (hs : 0 < step_size) (hnc : 1 ≤ coarse_half steps coarseness) :
    A_weight steps step_size coarseness fineness fi fj +
      B_weight steps step_size coarseness fineness fi fj +
      C_weight steps step_size coarseness fineness fi fj +
      D_weight steps step_size coarseness fineness fi fj = 1 := by
  unfold A_weight B_weight C_weight D_weight
  have hx := influence_sum steps step_size coarseness
    (fine_grid_val steps step_size fineness fi) hs hc hnc
  have hy := influence_sum steps step_size coarseness
    (fine_grid_val steps step_size fineness fj) hs hc hnc
  nlinarith [hx, hy]

/-- Witness for `virtualization_weights_sum_to_one`: a concrete configuration
(9 grid steps, step 1, coarseness 2, fineness 2, corner fine point). -/
theorem virtualization_weights_sum_to_one_witness :
    Odd 9 ∧ 1 ≤ 2 ∧ 0 < (1 : ℚ) ∧ 1 ≤ coarse_half 9 2 ∧
      A_weight 9 1 2 2 0 7 + B_weight 9 1 2 2 0 7 +
        C_weight 9 1 2 2 0 7 + D_weight 9 1 2 2 0 7 = 1 :=
  ⟨⟨4, by norm_num⟩, by norm_num, by norm_num, by decide,
    virtualization_weights_sum_to_one 9 1 2 2 0 7 ⟨4, by norm_num⟩
      (by norm_num) (by norm_num) (by norm_num) (by decide)⟩

/-! ### Theorems about the 9-point spline weighting and deposition -/

theorem deposit9_apply {K : Type} [LinearOrderedField K]
    (a : ℤ → ℤ → K) (w : Weights9 K) (val : K) (r s : ℤ) :
    deposit9 a w val r s = a r s
      + (if (r, s) = (w.i - 1, w.j + 1) then val * w.wMP else 0)
      + (if (r, s) = (w.i, w.j + 1) then val * w.w0P else 0)
      + (if (r, s) = (w.i + 1, w.j + 1) then val * w.wPP else 0)
      + (if (r, s) = (w.i - 1, w.j) then val * w.wM0 else 0)
      + (if (r, s) = (w.i, w.j) then val * w.w00 else 0)
      + (if (r, s) = (w.i + 1, w.j) then val * w.wP0 else 0)
      + (if (r, s) = (w.i - 1, w.j - 1) then val * w.wMM else 0)
      + (if (r, s) = (w.i, w.j - 1) then val * w.w0M else 0)
      + (if (r, s) = (w.i + 1, w.j - 1) then val * w.wPM else 0) := by
  simp only [deposit9, addAt]

theorem deposit9_sum {K : Type} [LinearOrderedField K] (S : Finset (ℤ × ℤ))
    (a : ℤ → ℤ → K) (w : Weights9 K) (val : K)
    (hsub : nineCells w.i w.j ⊆ S) :
    ∑ p ∈ S, (deposit9 a w val p.1 p.2 - a p.1 p.2)
      = val * (w.wMP + w.w0P + w.wPP + w.wM0 + w.w00 + w.wP0 + w.wMM + w.w0M + w.wPM) := by
  have hmem : ∀ di dj : ℤ, -1 ≤ di → di ≤ 1 → -1 ≤ dj → dj ≤ 1 →
      ((w.i + di, w.j + dj) : ℤ × ℤ) ∈ S := by
    intro di dj h1 h2 h3 h4
    apply hsub
    simp only [nineCells, Finset.mem_product, Finset.mem_Icc]
    omega
  have hs : ∀ p ∈ S, deposit9 a w val p.1 p.2 - a p.1 p.2 =
      (if p = (w.i - 1, w.j + 1) then val * w.wMP else 0)
      + (if p = (w.i, w.j + 1) then val * w.w0P else 0)
      + (if p = (w.i + 1, w.j + 1) then val * w.wPP else 0)
      + (if p = (w.i - 1, w.j) then val * w.wM0 else 0)
      + (if p = (w.i, w.j) then val * w.w00 else 0)
      + (if p = (w.i + 1, w.j) then val * w.wP0 else 0)
      + (if p = (w.i - 1, w.j - 1) then val * w.wMM else 0)
      + (if p = (w.i, w.j - 1) then val * w.w0M else 0)
      + (if p = (w.i + 1, w.j - 1) then val * w.wPM else 0) := by
    intro p _
    have hap := deposit9_apply a w val p.1 p.2
    simp only [Prod.mk.eta] at hap
    rw [hap]
    ring
  rw [Finset.sum_congr rfl hs]
  simp only [Finset.sum_add_distrib, Finset.sum_ite_eq' S]
  rw [if_pos (by simpa using hmem (-1) 1 (by norm_num) (by norm_num) (by norm_num) (by norm_num)),
    if_pos (by simpa using hmem 0 1 (by norm_num) (by norm_num) (by norm_num) (by norm_num)),
    if_pos (by simpa using hmem 1 1 (by norm_num) (by norm_num) (by norm_num) (by norm_num)),
    if_pos (by simpa using hmem (-1) 0 (by norm_num) (by norm_num) (by norm_num) (by norm_num)),
    if_pos (by simpa using hmem 0 0 (by norm_num) (by norm_num) (by norm_num) (by norm_num)),
    if_pos (by simpa using hmem 1 0 (by norm_num) (by norm_num) (by norm_num) (by norm_num)),
    if_pos (by simpa using hmem (-1) (-1) (by norm_num) (by norm_num) (by norm_num) (by norm_num)),
    if_pos (by simpa using hmem 0 (-1) (by norm_num) (by norm_num) (by norm_num) (by norm_num)),
    if_pos (by simpa using hmem 1 (-1) (by norm_num) (by norm_num) (by norm_num) (by norm_num))]
  ring

theorem weights_sum_one {K : Type} [LinearOrderedField K] [FloorRing K]
    (x y : K) (grid_steps : ℕ) (grid_step_size : K) :
    (weights x y grid_steps grid_step_size).wMP + (weights x y grid_steps grid_step_size).w0P
      + (weights x y grid_steps grid_step_size).wPP + (weights x y grid_steps grid_step_size).wM0
      + (weights x y grid_steps grid_step_size).w00 + (weights x y grid_steps grid_step_size).wP0
      + (weights x y grid_steps grid_step_size).wMM + (weights x y grid_steps grid_step_size).w0M
      + (weights x y grid_steps grid_step_size).wPM = 1 := by
  simp only [weights]
  ring

/-- C10.  For every real position, the nine quadratic-spline weights returned
by `weights` are the pairwise products of the per-axis triples
`(3/4 - d^2, (1/2 + d)^2 / 2, (1/2 - d)^2 / 2)` with `d ∈ [-1/2, 1/2)`, they
sum exactly to `1`, `interp9` applied to a constant array returns that
constant, and `deposit9` adds exactly `val` in total over its nine target
cells. -/
theorem weights_interp_deposit_spec (x y grid_step_size : ℝ) (grid_steps : ℕ)
    (c val : ℝ) (a : ℤ → ℤ → ℝ) :
    let w : Weights9 ℝ := weights x y grid_steps grid_step_size
    let dx := Int.fract (x / grid_step_size + 1 / 2) - 1 / 2
    let dy := Int.fract (y / grid_step_size + 1 / 2) - 1 / 2
    (-(1 / 2) ≤ dx ∧ dx < 1 / 2 ∧ -(1 / 2) ≤ dy ∧ dy < 1 / 2) ∧
    (w.wMP = (1 / 2 - dx) ^ 2 / 2 * ((1 / 2 + dy) ^ 2 / 2) ∧
      w.w0P = (3 / 4 - dx ^ 2) * ((1 / 2 + dy) ^ 2 / 2) ∧
      w.wPP = (1 / 2 + dx) ^ 2 / 2 * ((1 / 2 + dy) ^ 2 / 2) ∧
      w.wM0 = (1 / 2 - dx) ^ 2 / 2 * (3 / 4 - dy ^ 2) ∧
      w.w00 = (3 / 4 - dx ^ 2) * (3 / 4 - dy ^ 2) ∧
      w.wP0 = (1 / 2 + dx) ^ 2 / 2 * (3 / 4 - dy ^ 2) ∧
      w.wMM = (1 / 2 - dx) ^ 2 / 2 * ((1 / 2 - dy) ^ 2 / 2) ∧
      w.w0M = (3 / 4 - dx ^ 2) * ((1 / 2 - dy) ^ 2 / 2) ∧
      w.wPM = (1 / 2 + dx) ^ 2 / 2 * ((1 / 2 - dy) ^ 2 / 2)) ∧
    w.wMP + w.w0P + w.wPP + w.wM0 + w.w00 + w.wP0 + w.wMM + w.w0M + w.wPM = 1 ∧
    interp9 (fun _ _ => c) w = c ∧
    ∑ p ∈ nineCells w.i w.j, (deposit9 a w val p.1 p.2 - a p.1 p.2) = val := by
  intro w dx dy
  have hfr : ∀ t : ℝ, Int.fract t = t - ⌊t⌋ := fun t => rfl
  have hsum := weights_sum_one x y grid_steps grid_step_size
  refine ⟨?_, ?_, hsum, ?_, ?_⟩
  · have h1 := Int.fract_nonneg (x / grid_step_size + 1 / 2)
    have h2 := Int.fract_lt_one (x / grid_step_size + 1 / 2)
    have h3 := Int.fract_nonneg (y / grid_step_size + 1 / 2)
    have h4 := Int.fract_lt_one (y / grid_step_size + 1 / 2)
    constructor
    · simp only [dx]; linarith
    constructor
    · simp only [dx]; linarith
    constructor
    · simp only [dy]; linarith
    · simp only [dy]; linarith
  · simp only [w, dx, dy, weights, hfr]
    refine ⟨by ring_nf, by ring_nf, by ring_nf, by ring_nf, by ring_nf, by ring_nf,
      by ring_nf, by ring_nf, by ring_nf⟩
  · show interp9 (fun _ _ => c) (weights x y grid_steps grid_step_size) = c
    simp only [interp9]
    linear_combination c * hsum
  · show ∑ p ∈ nineCells (weights x y grid_steps grid_step_size).i
        (weights x y grid_steps grid_step_size).j,
        (deposit9 a (weights x y grid_steps grid_step_size) val p.1 p.2 - a p.1 p.2) = val
    rw [deposit9_sum _ a (weights x y grid_steps grid_step_size) val (Finset.Subset.refl _),
      hsum, mul_one]

/-! ### Theorems about per-fine-point deposition quantities (C7) -/

/-- C7.  Every fine point processed by `deposit_kernel` deposits quantities
computed from the bilinear reconstruction scaled by the smallness factor, with
`gamma_m = sqrt(m^2 + px^2 + py^2 + pz^2)` (nonnegative, squaring back to the
sum), `dro * (1 - pz/gamma_m) = q` and `dj_k * gamma_m = p_k * dro` (the
division-free characterizations of `dro = q / (1 - pz/gamma_m)` and
`dj_k = p_k * dro / gamma_m`), whenever the reconstructed mass is nonzero. -/
theorem deposit_kernel_fine_quantities (vp : VirtParams) (ca : CoarseArrays)
    (small : ℝ) (pi pj : ℕ) (hm : fine_m vp ca small pi pj ≠ 0) :
    fine_q vp ca small pi pj
        = small * (vp.A_weights pi pj * ca.q (vp.indices_prev pi) (vp.indices_prev pj)
          + vp.B_weights pi pj * ca.q (vp.indices_next pi) (vp.indices_prev pj)
          + vp.C_weights pi pj * ca.q (vp.indices_prev pi) (vp.indices_next pj)
          + vp.D_weights pi pj * ca.q (vp.indices_next pi) (vp.indices_next pj)) ∧
    fine_m vp ca small pi pj = small * fine_bilin vp ca.m pi pj ∧
    fine_px vp ca small pi pj = small * fine_bilin vp ca.px pi pj ∧
    fine_py vp ca small pi pj = small * fine_bilin vp ca.py pi pj ∧
    fine_pz vp ca small pi pj = small * fine_bilin vp ca.pz pi pj ∧
    0 ≤ fine_gamma_m vp ca small pi pj ∧
    fine_gamma_m vp ca small pi pj ^ 2
      = fine_m vp ca small pi pj ^ 2 + fine_px vp ca small pi pj ^ 2
        + fine_py vp ca small pi pj ^ 2 + fine_pz vp ca small pi pj ^ 2 ∧
    fine_dro vp ca small pi pj * (1 - fine_pz vp ca small pi pj / fine_gamma_m vp ca small pi pj)
      = fine_q vp ca small pi pj ∧
    fine_djx vp ca small pi pj * fine_gamma_m vp ca small pi pj
      = fine_px vp ca small pi pj * fine_dro vp ca small pi pj ∧
    fine_djy vp ca small pi pj * fine_gamma_m vp ca small pi pj
      = fine_py vp ca small pi pj * fine_dro vp ca small pi pj ∧
    fine_djz vp ca small pi pj * fine_gamma_m vp ca small pi pj
      = fine_pz vp ca small pi pj * fine_dro vp ca small pi pj := by
  set M := fine_m vp ca small pi pj with hM
  set PX := fine_px vp ca small pi pj with hPX
  set PY := fine_py vp ca small pi pj with hPY
  set PZ := fine_pz vp ca small pi pj with hPZ
  have hM2 : 0 < M ^ 2 := lt_of_le_of_ne (sq_nonneg M) (Ne.symm (pow_ne_zero 2 hm))
  have hpos : 0 < M ^ 2 + PX ^ 2 + PY ^ 2 + PZ ^ 2 := by positivity
  have hγpos : 0 < fine_gamma_m vp ca small pi pj := by
    rw [fine_gamma_m]
    exact Real.sqrt_pos.mpr hpos
  set γ := fine_gamma_m vp ca small pi pj with hγ
  have hγsq : γ ^ 2 = M ^ 2 + PX ^ 2 + PY ^ 2 + PZ ^ 2 := by
    rw [hγ, fine_gamma_m]
    exact Real.sq_sqrt hpos.le
  have hγne : γ ≠ 0 := ne_of_gt hγpos
  have hzlt : PZ < γ := by nlinarith [hγsq, hγpos, hM2, sq_nonneg PX, sq_nonneg PY]
  have hfac : (1 : ℝ) - PZ / γ ≠ 0 := by
    have : PZ / γ < 1 := (div_lt_one hγpos).mpr hzlt
    linarith
  refine ⟨rfl, rfl, rfl, rfl, rfl, hγpos.le, hγsq, ?_, ?_, ?_, ?_⟩
  · rw [fine_dro]
    exact div_mul_cancel₀ _ hfac
  · rw [fine_djx, mul_assoc, div_mul_cancel₀ _ hγne]
  · rw [fine_djy, mul_assoc, div_mul_cancel₀ _ hγne]
  · rw [fine_djz, mul_assoc, div_mul_cancel₀ _ hγne]

/-- Witness for `deposit_kernel_fine_quantities` at a concrete fine point
(`m = 3`, `q = 1`, `pz = 4`, trivial table, smallness 1). -/
theorem deposit_kernel_fine_quantities_witness :
    fine_m vpTriv caTest 1 0 0 ≠ 0 ∧
    (fine_dro vpTriv caTest 1 0 0 * (1 - fine_pz vpTriv caTest 1 0 0 / fine_gamma_m vpTriv caTest 1 0 0)
      = fine_q vpTriv caTest 1 0 0) := by
  have hm : fine_m vpTriv caTest 1 0 0 ≠ 0 := by
    simp only [fine_m, fine_bilin, vpTriv, caTest]
    norm_num
  exact ⟨hm, (deposit_kernel_fine_quantities vpTriv caTest 1 0 0 hm).2.2.2.2.2.2.2.1⟩

/-! ### Theorems about deposition conservation (C2) -/

/-- Core charge-accounting identity of `deposit`: summed over the whole grid,
the deposited charge density minus the ion background equals the sum of the
per-fine-particle `dro` contributions, provided every fine particle's 3x3
neighborhood lies inside the grid. -/
theorem deposit_ro_sum_helper (Nf N : ℕ) (h small : ℝ) (vp : VirtParams)
    (ca : CoarseArrays) (ro_initial : ℤ → ℤ → ℝ)
    (hin : ∀ p ∈ fineIndices Nf,
      1 ≤ (fine_weights N h vp ca p.1 p.2).i ∧ (fine_weights N h vp ca p.1 p.2).i ≤ (N : ℤ) - 2 ∧
      1 ≤ (fine_weights N h vp ca p.1 p.2).j ∧ (fine_weights N h vp ca p.1 p.2).j ≤ (N : ℤ) - 2) :
    ∑ cell ∈ gridCells N,
        (deposit_ro Nf N h vp ca small ro_initial cell.1 cell.2 - ro_initial cell.1 cell.2)
      = ∑ p ∈ fineIndices Nf, fine_dro vp ca small p.1 p.2 := by
  have hstep : ∀ cell ∈ gridCells N,
      deposit_ro Nf N h vp ca small ro_initial cell.1 cell.2 - ro_initial cell.1 cell.2
        = ∑ p ∈ fineIndices Nf,
            deposit9 (fun _ _ => 0) (fine_weights N h vp ca p.1 p.2)
              (fine_dro vp ca small p.1 p.2) cell.1 cell.2 := by
    intro cell _
    simp only [deposit_ro, deposit_scatter]
    ring
  rw [Finset.sum_congr rfl hstep, Finset.sum_comm]
  apply Finset.sum_congr rfl
  intro p hp
  have hsub : nineCells (fine_weights N h vp ca p.1 p.2).i (fine_weights N h vp ca p.1 p.2).j
      ⊆ gridCells N := by
    intro q hq
    obtain ⟨h1, h2, h3, h4⟩ := hin p hp
    simp only [nineCells, Finset.mem_product, Finset.mem_Icc] at hq
    simp only [gridCells, Finset.mem_product, Finset.mem_Icc]
    omega
  have := deposit9_sum (gridCells N) (fun _ _ => 0)
    (fine_weights N h vp ca p.1 p.2) (fine_dro vp ca small p.1 p.2) hsub
  simp only [sub_zero] at this
  rw [this]
  simp only [fine_weights]
  rw [weights_sum_one, mul_one]

/-- C2 (amended).  For every particle ensemble whose virtual particles all
deposit inside the grid, the sum over all grid cells of the `ro` array
returned by `deposit`, after subtracting the ion background `ro_initial`,
equals the total deposited charge of all virtual particles, i.e. the sum over
fine points of `dro = q / (1 - pz / gamma_m)` — the bilinearly interpolated
charge scaled by the smallness factor and additionally divided by the
longitudinal flux factor `1 - pz / gamma_m` (the claim's plain interpolated
charge only when all `pz` vanish). -/
theorem deposit_conserves_total_charge (Nf N : ℕ) (h small : ℝ) (vp : VirtParams)
    (ca : CoarseArrays) (ro_initial : ℤ → ℤ → ℝ)
    (hin : ∀ p ∈ fineIndices Nf,
      1 ≤ (fine_weights N h vp ca p.1 p.2).i ∧ (fine_weights N h vp ca p.1 p.2).i ≤ (N : ℤ) - 2 ∧
      1 ≤ (fine_weights N h vp ca p.1 p.2).j ∧ (fine_weights N h vp ca p.1 p.2).j ≤ (N : ℤ) - 2) :
    ∑ cell ∈ gridCells N,
        (deposit_ro Nf N h vp ca small ro_initial cell.1 cell.2 - ro_initial cell.1 cell.2)
      = ∑ p ∈ fineIndices Nf, fine_dro vp ca small p.1 p.2 :=
  deposit_ro_sum_helper Nf N h small vp ca ro_initial hin

theorem floor_half_eq_zero : ⌊(1 / 2 : ℝ)⌋ = 0 := by
  rw [Int.floor_eq_zero_iff]
  simp only [Set.mem_Ico]
  norm_num

/-- On the 5x5 grid with unit step, the single fine particle of the
`vpTriv`/`caTest` fixture deposits around cell `(2, 2)`, inside the grid. -/
theorem vpTriv_caTest_in_range : ∀ p ∈ fineIndices 1,
    1 ≤ (fine_weights 5 1 vpTriv caTest p.1 p.2).i ∧
    (fine_weights 5 1 vpTriv caTest p.1 p.2).i ≤ (5 : ℤ) - 2 ∧
    1 ≤ (fine_weights 5 1 vpTriv caTest p.1 p.2).j ∧
    (fine_weights 5 1 vpTriv caTest p.1 p.2).j ≤ (5 : ℤ) - 2 := by
  intro p hp
  have hp' : p = (0, 0) := by
    simp only [fineIndices, Finset.mem_product, Finset.mem_range] at hp
    obtain ⟨h1, h2⟩ := hp
    ext <;> omega
  subst hp'
  have hx : fine_x vpTriv caTest 0 0 = 0 := by
    simp [fine_x, fine_bilin, vpTriv, caTest]
  have hy : fine_y vpTriv caTest 0 0 = 0 := by
    simp [fine_y, fine_bilin, vpTriv, caTest]
  simp only [fine_weights, weights, hx, hy]
  norm_num [floor_half_eq_zero]

theorem sqrt_twentyfive : Real.sqrt 25 = 5 := by
  rw [show (25 : ℝ) = 5 ^ 2 by norm_num, Real.sqrt_sq]
  norm_num

/-- C2, counterexample.  For the concrete one-particle ensemble with
`m = 3`, `q = 1`, `pz = 4` (so `gamma_m = 5`), the grid total of the deposited
`ro` (net of the ion background) is `dro = q/(1 - pz/gamma_m) = 5`, not the
interpolated charge `1` the claim predicts. -/
theorem deposit_total_charge_cex :
    (∑ cell ∈ gridCells 5,
        (deposit_ro 1 5 1 vpTriv caTest 1 (fun _ _ => 0) cell.1 cell.2
          - (fun _ _ => (0 : ℝ)) cell.1 cell.2))
      ≠ total_virtual_charge 1 vpTriv caTest 1 := by
  rw [deposit_ro_sum_helper 1 5 1 1 vpTriv caTest (fun _ _ => 0) vpTriv_caTest_in_range]
  have hsingle : ∑ p ∈ fineIndices 1, fine_dro vpTriv caTest 1 p.1 p.2
      = fine_dro vpTriv caTest 1 0 0 := by
    simp [fineIndices, Finset.range_one]
  have hdro : fine_dro vpTriv caTest 1 0 0 = 5 := by
    have hγ : fine_gamma_m vpTriv caTest 1 0 0 = 5 := by
      simp only [fine_gamma_m, fine_m, fine_px, fine_py, fine_pz, fine_bilin, vpTriv, caTest]
      norm_num [sqrt_twentyfive]
    have hq : fine_q vpTriv caTest 1 0 0 = 1 := by
      simp [fine_q, fine_bilin, vpTriv, caTest]
    have hpz : fine_pz vpTriv caTest 1 0 0 = 4 := by
      simp [fine_pz, fine_bilin, vpTriv, caTest]
    simp only [fine_dro, hγ, hq, hpz]
    norm_num
  have htot : total_virtual_charge 1 vpTriv caTest 1 = 1 := by
    simp [total_virtual_charge, fineIndices, Finset.range_one, fine_q, fine_bilin, vpTriv, caTest]
  rw [hsingle, hdro, htot]
  norm_num

/-- Witness for `deposit_conserves_total_charge` at the concrete fixture. -/
theorem deposit_conserves_total_charge_witness :
    (∀ p ∈ fineIndices 1,
      1 ≤ (fine_weights 5 1 vpTriv caTest p.1 p.2).i ∧
      (fine_weights 5 1 vpTriv caTest p.1 p.2).i ≤ (5 : ℤ) - 2 ∧
      1 ≤ (fine_weights 5 1 vpTriv caTest p.1 p.2).j ∧
      (fine_weights 5 1 vpTriv caTest p.1 p.2).j ≤ (5 : ℤ) - 2) ∧
    (∑ cell ∈ gridCells 5,
        (deposit_ro 1 5 1 vpTriv caTest 1 (fun _ _ => 0) cell.1 cell.2
          - (fun _ _ => (0 : ℝ)) cell.1 cell.2))
      = ∑ p ∈ fineIndices 1, fine_dro vpTriv caTest 1 p.1 p.2 :=
  ⟨vpTriv_caTest_in_range,
    deposit_conserves_total_charge 1 5 1 1 vpTriv caTest (fun _ _ => 0) vpTriv_caTest_in_range⟩

/-! ### Theorems about the particle pusher (C8, C3) -/

/-- With all five field arrays identically zero, the pre-reflection part of
`move_smart_kernel` reduces to free streaming with unchanged momenta,
independently of the estimated offsets. -/
theorem move_smart_core_zero_fields (Δξ h : ℝ) (N : ℕ)
    (m q xi yi pxo pyo exo eyo opx opy opz : ℝ) :
    move_smart_core Δξ h N m q xi yi pxo pyo exo eyo opx opy opz
      (fun _ _ => 0) (fun _ _ => 0) (fun _ _ => 0) (fun _ _ => 0) (fun _ _ => 0)
    = ⟨pxo + opx / (Real.sqrt (m ^ 2 + opz ^ 2 + opx ^ 2 + opy ^ 2) - opz) * Δξ,
       pyo + opy / (Real.sqrt (m ^ 2 + opz ^ 2 + opx ^ 2 + opy ^ 2) - opz) * Δξ,
       opx, opy, opz⟩ := by
  simp only [move_smart_core, interp9]
  norm_num

/-- With all five field arrays identically zero, a full `move_smart` push is
free streaming with unchanged momenta followed by the reflection tail,
independently of the estimated offsets. -/
theorem move_smart_one_zero_fields (Δξ rb h : ℝ) (N : ℕ)
    (m q xi yi pxo pyo exo eyo opx opy opz : ℝ) :
    move_smart_one Δξ rb h N m q xi yi pxo pyo exo eyo opx opy opz
      (fun _ _ => 0) (fun _ _ => 0) (fun _ _ => 0) (fun _ _ => 0) (fun _ _ => 0)
    = move_smart_reflect rb xi yi
        ⟨pxo + opx / (Real.sqrt (m ^ 2 + opz ^ 2 + opx ^ 2 + opy ^ 2) - opz) * Δξ,
         pyo + opy / (Real.sqrt (m ^ 2 + opz ^ 2 + opx ^ 2 + opy ^ 2) - opz) * Δξ,
         opx, opy, opz⟩ := by
  rw [move_smart_one, move_smart_core_zero_fields]

/-- C8 (amended).  The field-free predictor advances each position offset by
exactly `p / (gamma_m - pz) * xi_step_size`, then mirrors: a coordinate that
stays within the boundary is kept, one that overshoots the positive boundary
by at most `2 * reflect_boundary` becomes `2 * reflect_boundary - x`, one that
undershoots the negative boundary by at most `2 * reflect_boundary` becomes
`-2 * reflect_boundary - x` (larger overshoots trigger the second mirror as
well), and all three momentum components are left unchanged. -/
theorem move_estimate_wo_fields_spec (Δξ rb m xi yi xo yo px py pz : ℝ)
    (hrb : 0 < rb) :
    let o : PushOut := move_estimate_wo_fields_one Δξ rb m xi yi xo yo px py pz
    let γ := Real.sqrt (m ^ 2 + pz ^ 2 + px ^ 2 + py ^ 2)
    let xs := xi + xo + px / (γ - pz) * Δξ
    let ys := yi + yo + py / (γ - pz) * Δξ
    (o.px = px ∧ o.py = py ∧ o.pz = pz) ∧
    (-rb ≤ xs → xs ≤ rb → xi + o.x_offt = xs) ∧
    (rb < xs → xs ≤ 3 * rb → xi + o.x_offt = 2 * rb - xs) ∧
    (-(3 * rb) ≤ xs → xs < -rb → xi + o.x_offt = -(2 * rb) - xs) ∧
    (-rb ≤ ys → ys ≤ rb → yi + o.y_offt = ys) ∧
    (rb < ys → ys ≤ 3 * rb → yi + o.y_offt = 2 * rb - ys) ∧
    (-(3 * rb) ≤ ys → ys < -rb → yi + o.y_offt = -(2 * rb) - ys) := by
  intro o γ xs ys
  refine ⟨⟨rfl, rfl, rfl⟩, ?_, ?_, ?_, ?_, ?_, ?_⟩
  · intro h1 h2
    simp only [o, move_estimate_wo_fields_one, if_pos h2, if_pos h1]
    ring
  · intro h1 h2
    have hn : ¬ (xs ≤ rb) := not_le.mpr h1
    have hin : -rb ≤ 2 * rb - xs := by linarith
    simp only [o, move_estimate_wo_fields_one, if_neg hn, if_pos hin]
    ring
  · intro h1 h2
    have hfirst : xs ≤ rb := by linarith
    have hn : ¬ (-rb ≤ xs) := not_le.mpr h2
    simp only [o, move_estimate_wo_fields_one, if_pos hfirst, if_neg hn]
    ring
  · intro h1 h2
    simp only [o, move_estimate_wo_fields_one, if_pos h2, if_pos h1]
    ring
  · intro h1 h2
    have hn : ¬ (ys ≤ rb) := not_le.mpr h1
    have hin : -rb ≤ 2 * rb - ys := by linarith
    simp only [o, move_estimate_wo_fields_one, if_neg hn, if_pos hin]
    ring
  · intro h1 h2
    have hfirst : ys ≤ rb := by linarith
    have hn : ¬ (-rb ≤ ys) := not_le.mpr h2
    simp only [o, move_estimate_wo_fields_one, if_pos hfirst, if_neg hn]
    ring

/-- Witness for `move_estimate_wo_fields_spec`: `m = 3`, `px = 4` (so
`gamma_m = 5`), step `5/16`, boundary `1/10`; the streamed position `1/4`
overshoots and is mirrored to `2 * rb - 1/4`, with momenta untouched. -/
theorem move_estimate_wo_fields_spec_witness :
    (move_estimate_wo_fields_one (5 / 16) (1 / 10) 3 0 0 0 0 4 0 0).px = 4 ∧
    0 + (move_estimate_wo_fields_one (5 / 16) (1 / 10) 3 0 0 0 0 4 0 0).x_offt
      = 2 * (1 / 10)
        - (0 + 0 + 4 / (Real.sqrt (3 ^ 2 + 0 ^ 2 + 4 ^ 2 + 0 ^ 2) - 0) * (5 / 16)) := by
  have hs : Real.sqrt ((3 : ℝ) ^ 2 + 0 ^ 2 + 4 ^ 2 + 0 ^ 2) = 5 := by
    rw [show (3 : ℝ) ^ 2 + 0 ^ 2 + 4 ^ 2 + 0 ^ 2 = 5 ^ 2 by norm_num, Real.sqrt_sq]
    norm_num
  have h := move_estimate_wo_fields_spec (5 / 16) (1 / 10) 3 0 0 0 0 4 0 0 (by norm_num)
  obtain ⟨hmom, -, hover, -, -, -, -⟩ := h
  refine ⟨hmom.1, ?_⟩
  apply hover
  · rw [hs]; norm_num
  · rw [hs]; norm_num

/-- C8, counterexample.  With boundary `1`, `gamma_m = 5` and step `25/4`,
the unconstrained position is `5`, which exceeds the boundary, yet the
predictor returns position `1` (two mirrors), not the single-mirror value
`2 * boundary - 5 = -3` the claim prescribes for any coordinate exceeding the
boundary. -/
theorem move_estimate_wo_fields_cex :
    (1 : ℝ) < 0 + 0 + 4 / (Real.sqrt ((3 : ℝ) ^ 2 + 0 ^ 2 + 4 ^ 2 + 0 ^ 2) - 0) * (25 / 4) ∧
    0 + (move_estimate_wo_fields_one (25 / 4) 1 3 0 0 0 0 4 0 0).x_offt
      ≠ 2 * 1
        - (0 + 0 + 4 / (Real.sqrt ((3 : ℝ) ^ 2 + 0 ^ 2 + 4 ^ 2 + 0 ^ 2) - 0) * (25 / 4)) := by
  have hs : Real.sqrt ((3 : ℝ) ^ 2 + 0 ^ 2 + 4 ^ 2 + 0 ^ 2) = 5 := by
    rw [show (3 : ℝ) ^ 2 + 0 ^ 2 + 4 ^ 2 + 0 ^ 2 = 5 ^ 2 by norm_num, Real.sqrt_sq]
    norm_num
  constructor
  · rw [hs]; norm_num
  · simp only [move_estimate_wo_fields_one, hs]
    norm_num

/-- C3 (amended).  A full push whose pre-reflection trajectory exits the
reflect boundary through exactly one side of one axis by less than
`2 * reflect_boundary`, while the other transverse coordinate stays strictly
inside, ends strictly inside `(-reflect_boundary, reflect_boundary)` on the
reflected axis with the pre-reflection position mirrored about the crossed
side (`x -> 2*rb - x` at the positive side, `x -> -2*rb - x` at the negative
side, lcode.py 463-484), that axis' momentum flipped in sign at equal
magnitude, and the other coordinate and momentum components unaffected by the
reflection; `pz` is never touched.  All four reflection branches are
covered. -/
theorem move_smart_reflection_spec (Δξ rb h : ℝ) (N : ℕ)
    (m q xi yi pxo pyo exo eyo opx opy opz : ℝ)
    (Ex Ey Ez Bx By : ℤ → ℤ → ℝ) (hrb : 0 < rb) :
    let core : PushOut := move_smart_core Δξ h N m q xi yi pxo pyo exo eyo
      opx opy opz Ex Ey Ez Bx By
    let one : PushOut := move_smart_one Δξ rb h N m q xi yi pxo pyo exo eyo
      opx opy opz Ex Ey Ez Bx By
    let xs := xi + core.x_offt
    let ys := yi + core.y_offt
    one.pz = core.pz ∧
    (rb < xs → xs < 3 * rb → -rb < ys → ys < rb →
      (-rb < xi + one.x_offt ∧ xi + one.x_offt < rb) ∧
      xi + one.x_offt = 2 * rb - xs ∧ one.px = -core.px ∧
      yi + one.y_offt = ys ∧ one.py = core.py) ∧
    (-(3 * rb) < xs → xs < -rb → -rb < ys → ys < rb →
      (-rb < xi + one.x_offt ∧ xi + one.x_offt < rb) ∧
      xi + one.x_offt = -(2 * rb) - xs ∧ one.px = -core.px ∧
      yi + one.y_offt = ys ∧ one.py = core.py) ∧
    (-rb < xs → xs < rb → rb < ys → ys < 3 * rb →
      (-rb < yi + one.y_offt ∧ yi + one.y_offt < rb) ∧
      yi + one.y_offt = 2 * rb - ys ∧ one.py = -core.py ∧
      xi + one.x_offt = xs ∧ one.px = core.px) ∧
    (-rb < xs → xs < rb → -(3 * rb) < ys → ys < -rb →
      (-rb < yi + one.y_offt ∧ yi + one.y_offt < rb) ∧
      yi + one.y_offt = -(2 * rb) - ys ∧ one.py = -core.py ∧
      xi + one.x_offt = xs ∧ one.px = core.px) := by
  intro core one xs ys
  have hone2 : one = move_smart_reflect rb xi yi core := rfl
  refine ⟨rfl, ?_, ?_, ?_, ?_⟩
  · intro h1 h2 h3 h4
    simp only [xs] at h1 h2
    simp only [ys] at h3 h4
    have hn2 : ¬ (2 * rb - (xi + core.x_offt) < -rb) := by push_neg; linarith
    have hyt : ¬ (rb < yi + core.y_offt) := by push_neg; linarith
    have hyb : ¬ (yi + core.y_offt < -rb) := by push_neg; linarith
    rw [hone2]
    simp only [move_smart_reflect, if_pos h1, if_neg hn2, if_neg hyt, if_neg hyb, xs, ys]
    refine ⟨⟨by linarith, by linarith⟩, by ring, trivial, by ring, trivial⟩
  · intro h1 h2 h3 h4
    simp only [xs] at h1 h2
    simp only [ys] at h3 h4
    have hxt : ¬ (rb < xi + core.x_offt) := by push_neg; linarith
    have hyt : ¬ (rb < yi + core.y_offt) := by push_neg; linarith
    have hyb : ¬ (yi + core.y_offt < -rb) := by push_neg; linarith
    rw [hone2]
    simp only [move_smart_reflect, if_neg hxt, if_pos h2, if_neg hyt, if_neg hyb, xs, ys]
    refine ⟨⟨by linarith, by linarith⟩, by ring, trivial, by ring, trivial⟩
  · intro h1 h2 h3 h4
    simp only [xs] at h1 h2
    simp only [ys] at h3 h4
    have hxt : ¬ (rb < xi + core.x_offt) := by push_neg; linarith
    have hxb : ¬ (xi + core.x_offt < -rb) := by push_neg; linarith
    have hn2 : ¬ (2 * rb - (yi + core.y_offt) < -rb) := by push_neg; linarith
    rw [hone2]
    simp only [move_smart_reflect, if_neg hxt, if_neg hxb, if_pos h3, if_neg hn2, xs, ys]
    refine ⟨⟨by linarith, by linarith⟩, by ring, trivial, by ring, trivial⟩
  · intro h1 h2 h3 h4
    simp only [xs] at h1 h2
    simp only [ys] at h3 h4
    have hxt : ¬ (rb < xi + core.x_offt) := by push_neg; linarith
    have hxb : ¬ (xi + core.x_offt < -rb) := by push_neg; linarith
    have hyt : ¬ (rb < yi + core.y_offt) := by push_neg; linarith
    rw [hone2]
    simp only [move_smart_reflect, if_neg hxt, if_neg hxb, if_neg hyt, if_pos h4, xs, ys]
    refine ⟨⟨by linarith, by linarith⟩, by ring, trivial, by ring, trivial⟩

/-- Witness for `move_smart_reflection_spec`: `m = 3`, momentum `(4, 0, 0)`
(`gamma_m = 5`), zero fields, step `5/16`, boundary `1/10`: the pre-reflection
position `1/4` lies in `(rb, 3*rb)`, and the push returns `px = -4` at
position `2/10 - 1/4`. -/
theorem move_smart_reflection_spec_witness :
    (1 / 10 : ℝ) < 0 + (move_smart_core (5 / 16) 1 7 3 (-1) 0 0 0 0 0 0
      4 0 0 (fun _ _ => 0) (fun _ _ => 0) (fun _ _ => 0) (fun _ _ => 0) (fun _ _ => 0)).x_offt ∧
    (move_smart_one (5 / 16) (1 / 10) 1 7 3 (-1) 0 0 0 0 0 0
      4 0 0 (fun _ _ => 0) (fun _ _ => 0) (fun _ _ => 0) (fun _ _ => 0) (fun _ _ => 0)).px
      = -(move_smart_core (5 / 16) 1 7 3 (-1) 0 0 0 0 0 0
      4 0 0 (fun _ _ => 0) (fun _ _ => 0) (fun _ _ => 0) (fun _ _ => 0) (fun _ _ => 0)).px := by
  have hs : Real.sqrt ((3 : ℝ) ^ 2 + 0 ^ 2 + 4 ^ 2 + 0 ^ 2) = 5 := by
    rw [show (3 : ℝ) ^ 2 + 0 ^ 2 + 4 ^ 2 + 0 ^ 2 = 5 ^ 2 by norm_num, Real.sqrt_sq]
    norm_num
  have hcore : move_smart_core (5 / 16) 1 7 3 (-1) 0 0 0 0 0 0 4 0 0
      (fun _ _ => 0) (fun _ _ => 0) (fun _ _ => 0) (fun _ _ => 0) (fun _ _ => 0)
      = ⟨0 + 4 / (Real.sqrt (3 ^ 2 + 0 ^ 2 + 4 ^ 2 + 0 ^ 2) - 0) * (5 / 16),
         0 + 0 / (Real.sqrt (3 ^ 2 + 0 ^ 2 + 4 ^ 2 + 0 ^ 2) - 0) * (5 / 16), 4, 0, 0⟩ :=
    move_smart_core_zero_fields (5 / 16) 1 7 3 (-1) 0 0 0 0 0 0 4 0 0
  have hx : (move_smart_core (5 / 16) 1 7 3 (-1) 0 0 0 0 0 0 4 0 0
      (fun _ _ => 0) (fun _ _ => 0) (fun _ _ => 0) (fun _ _ => 0) (fun _ _ => 0)).x_offt
      = 1 / 4 := by
    rw [hcore]
    simp only [hs]
    norm_num
  have hy : (move_smart_core (5 / 16) 1 7 3 (-1) 0 0 0 0 0 0 4 0 0
      (fun _ _ => 0) (fun _ _ => 0) (fun _ _ => 0) (fun _ _ => 0) (fun _ _ => 0)).y_offt
      = 0 := by
    rw [hcore]
    norm_num
  have h := move_smart_reflection_spec (5 / 16) (1 / 10) 1 7 3 (-1) 0 0 0 0 0 0 4 0 0
    (fun _ _ => 0) (fun _ _ => 0) (fun _ _ => 0) (fun _ _ => 0) (fun _ _ => 0)
    (by norm_num)
  obtain ⟨-, hbr, -, -, -⟩ := h
  have hcon := hbr (by rw [hx]; norm_num) (by rw [hx]; norm_num)
    (by rw [hy]; norm_num) (by rw [hy]; norm_num)
  exact ⟨by rw [hx]; norm_num, hcon.2.2.1⟩

/-- C3, counterexample.  With boundary `1/10` and step `5/8` the
pre-reflection position is `1/2 = 5 * rb`: the trajectory exits the boundary,
but the double reflection brings the particle back to exactly `rb` (not
strictly inside) with its `x` momentum flipped twice, i.e. NOT of opposite
sign to the pre-reflection momentum, refuting the claim's conclusion. -/
theorem move_smart_reflection_cex :
    (1 / 10 : ℝ) < 0 + (move_smart_core (5 / 8) 1 7 3 (-1) 0 0 0 0 0 0
      4 0 0 (fun _ _ => 0) (fun _ _ => 0) (fun _ _ => 0) (fun _ _ => 0) (fun _ _ => 0)).x_offt ∧
    ¬ ((0 + (move_smart_one (5 / 8) (1 / 10) 1 7 3 (-1) 0 0 0 0 0 0
        4 0 0 (fun _ _ => 0) (fun _ _ => 0) (fun _ _ => 0) (fun _ _ => 0) (fun _ _ => 0)).x_offt
          < 1 / 10) ∧
      (move_smart_one (5 / 8) (1 / 10) 1 7 3 (-1) 0 0 0 0 0 0
        4 0 0 (fun _ _ => 0) (fun _ _ => 0) (fun _ _ => 0) (fun _ _ => 0) (fun _ _ => 0)).px
        = -(move_smart_core (5 / 8) 1 7 3 (-1) 0 0 0 0 0 0
        4 0 0 (fun _ _ => 0) (fun _ _ => 0) (fun _ _ => 0) (fun _ _ => 0) (fun _ _ => 0)).px) := by
  have hs : Real.sqrt ((3 : ℝ) ^ 2 + 0 ^ 2 + 4 ^ 2 + 0 ^ 2) = 5 := by
    rw [show (3 : ℝ) ^ 2 + 0 ^ 2 + 4 ^ 2 + 0 ^ 2 = 5 ^ 2 by norm_num, Real.sqrt_sq]
    norm_num
  have hcore : move_smart_core (5 / 8) 1 7 3 (-1) 0 0 0 0 0 0 4 0 0
      (fun _ _ => 0) (fun _ _ => 0) (fun _ _ => 0) (fun _ _ => 0) (fun _ _ => 0)
      = ⟨0 + 4 / (Real.sqrt (3 ^ 2 + 0 ^ 2 + 4 ^ 2 + 0 ^ 2) - 0) * (5 / 8),
         0 + 0 / (Real.sqrt (3 ^ 2 + 0 ^ 2 + 4 ^ 2 + 0 ^ 2) - 0) * (5 / 8), 4, 0, 0⟩ :=
    move_smart_core_zero_fields (5 / 8) 1 7 3 (-1) 0 0 0 0 0 0 4 0 0
  have hone : move_smart_one (5 / 8) (1 / 10) 1 7 3 (-1) 0 0 0 0 0 0 4 0 0
      (fun _ _ => 0) (fun _ _ => 0) (fun _ _ => 0) (fun _ _ => 0) (fun _ _ => 0)
      = move_smart_reflect (1 / 10) 0 0 (move_smart_core (5 / 8) 1 7 3 (-1) 0 0 0 0 0 0 4 0 0
        (fun _ _ => 0) (fun _ _ => 0) (fun _ _ => 0) (fun _ _ => 0) (fun _ _ => 0)) := rfl
  rw [hone, hcore]
  simp only [move_smart_reflect, hs]
  norm_num

/-! ### Theorems about fail-fast initialization (C9) -/

/-- C9.  Initialization fails fast: `GPUMonolith` construction cannot succeed
when the grid step count is even, when the reflect padding does not exceed
`plasma_coarseness + 1`, or when the particle attribute arrays do not all have
`Nc^2` elements; and `initial_deposition` cannot succeed when any initial
momentum component is nonzero. -/
theorem initialization_fails_fast (cfg : PyConfig)
    (x_init y_init x_offt y_offt px py pz m q : List ℚ) :
    (cfg.grid_steps % 2 = 0 →
      ¬ gpu_monolith_init_ok cfg x_init y_init x_offt y_offt px py pz m q) ∧
    (cfg.reflect_padding_steps ≤ cfg.plasma_coarseness + 1 →
      ¬ gpu_monolith_init_ok cfg x_init y_init x_offt y_offt px py pz m q) ∧
    (¬ (Nat.sqrt q.length ^ 2 = x_init.length ∧ Nat.sqrt q.length ^ 2 = y_init.length ∧
        Nat.sqrt q.length ^ 2 = x_offt.length ∧ Nat.sqrt q.length ^ 2 = y_offt.length ∧
        Nat.sqrt q.length ^ 2 = px.length ∧ Nat.sqrt q.length ^ 2 = py.length ∧
        Nat.sqrt q.length ^ 2 = pz.length ∧ Nat.sqrt q.length ^ 2 = m.length ∧
        Nat.sqrt q.length ^ 2 = q.length) →
      ¬ gpu_monolith_init_ok cfg x_init y_init x_offt y_offt px py pz m q) ∧
    (((∃ v ∈ px, v ≠ 0) ∨ (∃ v ∈ py, v ≠ 0) ∨ (∃ v ∈ pz, v ≠ 0)) →
      ¬ initial_deposition_ok px py pz) := by
  refine ⟨?_, ?_, ?_, ?_⟩
  · intro h hok
    obtain ⟨-, -, -, -, -, -, -, -, -, -, hodd⟩ := hok
    omega
  · intro h hok
    obtain ⟨-, -, -, -, -, -, -, -, -, hpad, -⟩ := hok
    omega
  · intro hne hok
    obtain ⟨h1, h2, h3, h4, h5, h6, h7, h8, h9, -, -⟩ := hok
    exact hne ⟨h1, h2, h3, h4, h5, h6, h7, h8, h9⟩
  · intro hne hok
    obtain ⟨hx, hy, hz⟩ := hok
    rcases hne with ⟨v, hv, hv0⟩ | ⟨v, hv, hv0⟩ | ⟨v, hv, hv0⟩
    · exact hv0 (hx v hv)
    · exact hv0 (hy v hv)
    · exact hv0 (hz v hv)

/-- Witness for `initialization_fails_fast`: the even-grid configuration
`cfgBad` is rejected, and a nonzero initial `px` is rejected. -/
theorem initialization_fails_fast_witness :
    ¬ gpu_monolith_init_ok cfgBad [0] [0] [0] [0] [0] [0] [0] [0] [0] ∧
    ¬ initial_deposition_ok [1] [0] [0] :=
  ⟨(initialization_fails_fast cfgBad [0] [0] [0] [0] [0] [0] [0] [0] [0]).1 rfl,
    (initialization_fails_fast cfgBad [1] [1] [1] [1] [1] [0] [0] [1] [1]).2.2.2
      (Or.inl ⟨1, by simp, by norm_num⟩)⟩

/-! ### Zero-preservation of the field solvers -/

theorem dstPad_zero (M : ℕ) : dstPad M (fun _ _ => 0) = fun _ _ => 0 := by
  funext x y
  simp [dstPad]

theorem dft2_zero (n k l : ℕ) : dft2 n (fun _ _ => 0) k l = 0 := by
  simp [dft2]

theorem dst2d_zero (M k l : ℕ) : dst2d M (fun _ _ => 0) k l = 0 := by
  rw [dst2d, dstPad_zero, dft2_zero]
  simp

theorem dirichlet_solve_zero (N : ℕ) (h : ℝ) :
    dirichlet_solve N h (fun _ _ => 0) = fun _ _ => 0 := by
  have h1 : (fun k l => dst2d (N - 2) (fun _ _ => (0 : ℝ)) k l * dirichlet_mul N h k l)
      = fun _ _ => (0 : ℝ) := by
    funext k l
    rw [dst2d_zero, zero_mul]
  unfold dirichlet_solve
  rw [h1]
  funext i j
  simp [padInner, dst2d_zero]

theorem calculate_RHS_Ez_zero (h : ℝ) :
    calculate_RHS_Ez h (fun _ _ => 0) (fun _ _ => 0) = fun _ _ => 0 := by
  funext i j
  simp [calculate_RHS_Ez]

theorem calculate_Ez_zero (N : ℕ) (h : ℝ) :
    calculate_Ez N h (fun _ _ => 0) (fun _ _ => 0) = fun _ _ => 0 := by
  rw [calculate_Ez, calculate_RHS_Ez_zero, dirichlet_solve_zero]

theorem dctn1_zero (M k l : ℕ) : dctn1 M (fun _ _ => 0) k l = 0 := by
  simp [dctn1]

theorem mixed_solve_zero (N : ℕ) (h s : ℝ) :
    mixed_solve N h s (fun _ _ => 0) = fun _ _ => 0 := by
  have h1 : (fun k l => dctn1 (N - 2) (fun _ _ => (0 : ℝ)) k l * mixed_mul N h s k l)
      = fun _ _ => (0 : ℝ) := by
    funext k l
    rw [dctn1_zero, zero_mul]
  unfold mixed_solve
  rw [h1]
  funext i j
  simp [padInner, dctn1_zero]

theorem trN_zero : trN (fun _ _ => 0) = fun _ _ => 0 := rfl

theorem trZ_zero : trZ (fun _ _ => 0) = fun _ _ => 0 := rfl

theorem Ex_rhs_of_zero (h Δξ s : ℝ) :
    Ex_rhs_of h Δξ s (fun _ _ => 0) (fun _ _ => 0) (fun _ _ => 0) (fun _ _ => 0)
      (fun _ _ => 0) = fun _ _ => 0 := by
  funext i j
  simp [Ex_rhs_of, dx_dy_x]

theorem Ey_rhs_of_zero (h Δξ s : ℝ) :
    Ey_rhs_of h Δξ s (fun _ _ => 0) (fun _ _ => 0) (fun _ _ => 0) (fun _ _ => 0)
      (fun _ _ => 0) = fun _ _ => 0 := by
  funext i j
  simp [Ey_rhs_of, dx_dy_y]

theorem Bx_rhs_of_zero (h Δξ s : ℝ) :
    Bx_rhs_of h Δξ s (fun _ _ => 0) (fun _ _ => 0) (fun _ _ => 0) (fun _ _ => 0)
      (fun _ _ => 0) = fun _ _ => 0 := by
  funext i j
  simp [Bx_rhs_of, dx_dy_y]

theorem By_rhs_of_zero (h Δξ s : ℝ) :
    By_rhs_of h Δξ s (fun _ _ => 0) (fun _ _ => 0) (fun _ _ => 0) (fun _ _ => 0)
      (fun _ _ => 0) = fun _ _ => 0 := by
  funext i j
  simp [By_rhs_of, dx_dy_x]

theorem calculate_Ex_zero (N : ℕ) (h Δξ s : ℝ) :
    calculate_Ex N h Δξ s (fun _ _ => 0) (fun _ _ => 0) (fun _ _ => 0) (fun _ _ => 0)
      (fun _ _ => 0) = fun _ _ => 0 := by
  rw [calculate_Ex, Ex_rhs_of_zero, trN_zero, mixed_solve_zero, trZ_zero]

theorem calculate_Ey_zero (N : ℕ) (h Δξ s : ℝ) :
    calculate_Ey N h Δξ s (fun _ _ => 0) (fun _ _ => 0) (fun _ _ => 0) (fun _ _ => 0)
      (fun _ _ => 0) = fun _ _ => 0 := by
  rw [calculate_Ey, Ey_rhs_of_zero, mixed_solve_zero]

theorem calculate_Bx_zero (N : ℕ) (h Δξ s : ℝ) :
    calculate_Bx N h Δξ s (fun _ _ => 0) (fun _ _ => 0) (fun _ _ => 0) (fun _ _ => 0)
      (fun _ _ => 0) = fun _ _ => 0 := by
  rw [calculate_Bx, Bx_rhs_of_zero, mixed_solve_zero]

theorem calculate_By_zero (N : ℕ) (h Δξ s : ℝ) :
    calculate_By N h Δξ s (fun _ _ => 0) (fun _ _ => 0) (fun _ _ => 0) (fun _ _ => 0)
      (fun _ _ => 0) = fun _ _ => 0 := by
  rw [calculate_By, By_rhs_of_zero, trN_zero, mixed_solve_zero, trZ_zero]

/-! ### Theorems about the step driver (C6, C4) -/

/-- C6.  One `GPUMonolith.step` call computes exactly the pipeline of the
specification's numbered sequence: the returned state carries the
last-solved, NON-averaged `Ex/Ey/Ez/Bx/By` of the second field solve
(`Bz = 0`), the `ro, jx, jy, jz` of the final deposit, and the
offsets/momenta of the third full push, and every full push starts from the
PREVIOUS slice's offsets and momenta, the earlier pass's offsets entering
only as half-step field-interpolation estimates (see `step_spec`). -/
theorem step_matches_spec_pipeline (g : Monolith) (beam_ro : ℤ → ℤ → ℝ)
    (prev : PlasmaState) :
    GPUMonolith.step g beam_ro prev = step_spec g beam_ro prev := rfl

/-- `move_smart_arrays` with all five field arrays zero computes the single
zero-field push `free_stream_push`, independently of the estimated offsets. -/
theorem move_smart_arrays_zero_fields (g : Monolith) (prev : PlasmaState)
    (ex ey : ℕ → ℕ → ℝ) :
    move_smart_arrays g prev.x_offt prev.y_offt ex ey prev.px prev.py prev.pz
      (fun _ _ => 0) (fun _ _ => 0) (fun _ _ => 0) (fun _ _ => 0) (fun _ _ => 0)
    = free_stream_push g prev := by
  funext i j
  simp only [move_smart_arrays, free_stream_push]
  rw [move_smart_one_zero_fields]

/-- C4 (amended).  If the previous slice's fields, the beam density and the
previous currents `jx, jy` are all zero AND the deposits of the zero-field
push produce identically zero `ro` (after the ion background addition) and
zero currents, then one full `GPUMonolith.step` returns exactly the single
zero-field push `free_stream_push` (free streaming with boundary reflection,
which flips the reflected transverse momentum's sign) together with all-zero
fields and sources; in particular every particle whose streamed position
stays within the reflect boundary on both axes keeps its momentum exactly and
advances its offsets by exactly `p / (gamma_m - pz) * xi_step_size`. -/
theorem step_zero_field_free_streaming (g : Monolith) (beam_ro : ℤ → ℤ → ℝ)
    (prev : PlasmaState)
    (hEx : prev.Ex = fun _ _ => 0) (hEy : prev.Ey = fun _ _ => 0)
    (hEz : prev.Ez = fun _ _ => 0) (hBx : prev.Bx = fun _ _ => 0)
    (hBy : prev.By = fun _ _ => 0)
    (hbeam : beam_ro = fun _ _ => 0)
    (hjx : prev.jx = fun _ _ => 0) (hjy : prev.jy = fun _ _ => 0)
    (hro : deposit_ro g.Nf g.grid_steps g.grid_step_size g.virt_params
        (pushCoarse g (free_stream_push g prev)) g.virtplasma_smallness_factor g.ro_initial
      = fun _ _ => 0)
    (hjxd : deposit_jx g.Nf g.grid_steps g.grid_step_size g.virt_params
        (pushCoarse g (free_stream_push g prev)) g.virtplasma_smallness_factor
      = fun _ _ => 0)
    (hjyd : deposit_jy g.Nf g.grid_steps g.grid_step_size g.virt_params
        (pushCoarse g (free_stream_push g prev)) g.virtplasma_smallness_factor
      = fun _ _ => 0)
    (hjzd : deposit_jz g.Nf g.grid_steps g.grid_step_size g.virt_params
        (pushCoarse g (free_stream_push g prev)) g.virtplasma_smallness_factor
      = fun _ _ => 0) :
    GPUMonolith.step g beam_ro prev
      = { x_offt := fun i j => (free_stream_push g prev i j).x_offt,
          y_offt := fun i j => (free_stream_push g prev i j).y_offt,
          px := fun i j => (free_stream_push g prev i j).px,
          py := fun i j => (free_stream_push g prev i j).py,
          pz := fun i j => (free_stream_push g prev i j).pz,
          Ex := fun _ _ => 0, Ey := fun _ _ => 0, Ez := fun _ _ => 0,
          Bx := fun _ _ => 0, By := fun _ _ => 0, Bz := fun _ _ => 0,
          ro := fun _ _ => 0, jx := fun _ _ => 0, jy := fun _ _ => 0,
          jz := fun _ _ => 0 } ∧
    (∀ i j,
      -g.reflect_boundary ≤ g.x_init i j + prev.x_offt i j + prev.px i j /
          (Real.sqrt ((g.m i j) ^ 2 + (prev.pz i j) ^ 2 + (prev.px i j) ^ 2 + (prev.py i j) ^ 2)
            - prev.pz i j) * g.xi_step_size →
      g.x_init i j + prev.x_offt i j + prev.px i j /
          (Real.sqrt ((g.m i j) ^ 2 + (prev.pz i j) ^ 2 + (prev.px i j) ^ 2 + (prev.py i j) ^ 2)
            - prev.pz i j) * g.xi_step_size ≤ g.reflect_boundary →
      -g.reflect_boundary ≤ g.y_init i j + prev.y_offt i j + prev.py i j /
          (Real.sqrt ((g.m i j) ^ 2 + (prev.pz i j) ^ 2 + (prev.px i j) ^ 2 + (prev.py i j) ^ 2)
            - prev.pz i j) * g.xi_step_size →
      g.y_init i j + prev.y_offt i j + prev.py i j /
          (Real.sqrt ((g.m i j) ^ 2 + (prev.pz i j) ^ 2 + (prev.px i j) ^ 2 + (prev.py i j) ^ 2)
            - prev.pz i j) * g.xi_step_size ≤ g.reflect_boundary →
      (free_stream_push g prev i j).px = prev.px i j ∧
      (free_stream_push g prev i j).py = prev.py i j ∧
      (free_stream_push g prev i j).pz = prev.pz i j ∧
      (free_stream_push g prev i j).x_offt = prev.x_offt i j + prev.px i j /
          (Real.sqrt ((g.m i j) ^ 2 + (prev.pz i j) ^ 2 + (prev.px i j) ^ 2 + (prev.py i j) ^ 2)
            - prev.pz i j) * g.xi_step_size ∧
      (free_stream_push g prev i j).y_offt = prev.y_offt i j + prev.py i j /
          (Real.sqrt ((g.m i j) ^ 2 + (prev.pz i j) ^ 2 + (prev.px i j) ^ 2 + (prev.py i j) ^ 2)
            - prev.pz i j) * g.xi_step_size) := by
  constructor
  · have havg : (fun (r c : ℤ) =>
        ((fun (_ _ : ℤ) => (0 : ℝ)) r c + (fun (_ _ : ℤ) => (0 : ℝ)) r c) / 2)
        = fun (_ _ : ℤ) => (0 : ℝ) := by
      funext r c
      norm_num
    simp only [GPUMonolith.step, hEx, hEy, hEz, hBx, hBy, hbeam, hjx, hjy,
      move_smart_arrays_zero_fields, hro, hjxd, hjyd, hjzd,
      calculate_Ex_zero, calculate_Ey_zero, calculate_Bx_zero, calculate_By_zero,
      calculate_Ez_zero, havg]
  · intro i j h1 h2 h3 h4
    have hxin : ¬ (g.reflect_boundary < g.x_init i j + (prev.x_offt i j + prev.px i j /
        (Real.sqrt ((g.m i j) ^ 2 + (prev.pz i j) ^ 2 + (prev.px i j) ^ 2 + (prev.py i j) ^ 2)
          - prev.pz i j) * g.xi_step_size)) := by
      push_neg
      linarith
    have hyin : ¬ (g.reflect_boundary < g.y_init i j + (prev.y_offt i j + prev.py i j /
        (Real.sqrt ((g.m i j) ^ 2 + (prev.pz i j) ^ 2 + (prev.px i j) ^ 2 + (prev.py i j) ^ 2)
          - prev.pz i j) * g.xi_step_size)) := by
      push_neg
      linarith
    have hxin2 : ¬ (g.x_init i j + (prev.x_offt i j + prev.px i j /
        (Real.sqrt ((g.m i j) ^ 2 + (prev.pz i j) ^ 2 + (prev.px i j) ^ 2 + (prev.py i j) ^ 2)
          - prev.pz i j) * g.xi_step_size) < -g.reflect_boundary) := by
      push_neg
      linarith
    have hyin2 : ¬ (g.y_init i j + (prev.y_offt i j + prev.py i j /
        (Real.sqrt ((g.m i j) ^ 2 + (prev.pz i j) ^ 2 + (prev.px i j) ^ 2 + (prev.py i j) ^ 2)
          - prev.pz i j) * g.xi_step_size) < -g.reflect_boundary) := by
      push_neg
      linarith
    simp only [free_stream_push, move_smart_reflect, if_neg hxin, if_neg hyin,
      if_neg hxin2, if_neg hyin2]
    refine ⟨trivial, trivial, trivial, by ring, by ring⟩

theorem deposit9_zero_val {K : Type} [LinearOrderedField K]
    (a : ℤ → ℤ → K) (w : Weights9 K) (r s : ℤ) :
    deposit9 a w 0 r s = a r s := by
  rw [deposit9_apply]
  simp

theorem deposit_scatter_zero (Nf N : ℕ) (h : ℝ) (vp : VirtParams) (ca : CoarseArrays)
    (val : ℕ → ℕ → ℝ) (hv : ∀ pi pj, val pi pj = 0) :
    deposit_scatter Nf N h vp ca val = fun _ _ => 0 := by
  funext r s
  simp only [deposit_scatter]
  have hterm : ∀ p ∈ fineIndices Nf,
      deposit9 (fun _ _ => 0) (fine_weights N h vp ca p.1 p.2) (val p.1 p.2) r s = 0 := by
    intro p _
    rw [hv, deposit9_zero_val]
  rw [Finset.sum_congr rfl hterm, Finset.sum_const_zero]

theorem gW_fine_dro_zero (ca : CoarseArrays) (hq : ca.q = fun _ _ => 0) :
    ∀ pi pj, fine_dro gW.virt_params ca gW.virtplasma_smallness_factor pi pj = 0 := by
  intro pi pj
  simp [fine_dro, fine_q, fine_bilin, hq]

theorem gW_deposits_zero (ca : CoarseArrays) (hq : ca.q = fun _ _ => 0) :
    deposit_ro gW.Nf gW.grid_steps gW.grid_step_size gW.virt_params ca
        gW.virtplasma_smallness_factor gW.ro_initial = (fun _ _ => 0) ∧
    deposit_jx gW.Nf gW.grid_steps gW.grid_step_size gW.virt_params ca
        gW.virtplasma_smallness_factor = (fun _ _ => 0) ∧
    deposit_jy gW.Nf gW.grid_steps gW.grid_step_size gW.virt_params ca
        gW.virtplasma_smallness_factor = (fun _ _ => 0) ∧
    deposit_jz gW.Nf gW.grid_steps gW.grid_step_size gW.virt_params ca
        gW.virtplasma_smallness_factor = (fun _ _ => 0) := by
  have hdro := gW_fine_dro_zero ca hq
  refine ⟨?_, ?_, ?_, ?_⟩
  · funext r s
    simp only [deposit_ro]
    rw [deposit_scatter_zero _ _ _ _ _ _ hdro]
    show gW.ro_initial r s + (0 : ℝ) = 0
    simp [gW]
  · rw [deposit_jx, deposit_scatter_zero]
    intro pi pj
    simp [fine_djx, hdro pi pj]
  · rw [deposit_jy, deposit_scatter_zero]
    intro pi pj
    simp [fine_djy, hdro pi pj]
  · rw [deposit_jz, deposit_scatter_zero]
    intro pi pj
    simp [fine_djz, hdro pi pj]

/-- Witness for `step_zero_field_free_streaming`: the chargeless `gW` plasma
in the all-zero state `prevW` satisfies every hypothesis, and a full step
returns the zero-field push with all-zero fields and sources. -/
theorem step_zero_field_free_streaming_witness :
    (prevW.Ex = fun _ _ => 0) ∧
    GPUMonolith.step gW (fun _ _ => 0) prevW
      = { x_offt := fun i j => (free_stream_push gW prevW i j).x_offt,
          y_offt := fun i j => (free_stream_push gW prevW i j).y_offt,
          px := fun i j => (free_stream_push gW prevW i j).px,
          py := fun i j => (free_stream_push gW prevW i j).py,
          pz := fun i j => (free_stream_push gW prevW i j).pz,
          Ex := fun _ _ => 0, Ey := fun _ _ => 0, Ez := fun _ _ => 0,
          Bx := fun _ _ => 0, By := fun _ _ => 0, Bz := fun _ _ => 0,
          ro := fun _ _ => 0, jx := fun _ _ => 0, jy := fun _ _ => 0,
          jz := fun _ _ => 0 } := by
  have hq : (pushCoarse gW (free_stream_push gW prevW)).q = fun _ _ => (0 : ℝ) := rfl
  obtain ⟨h1, h2, h3, h4⟩ := gW_deposits_zero (pushCoarse gW (free_stream_push gW prevW)) hq
  exact ⟨rfl, (step_zero_field_free_streaming gW (fun _ _ => 0) prevW
    rfl rfl rfl rfl rfl rfl rfl rfl h1 h2 h3 h4).1⟩

/-- With zero charge the Lorentz force vanishes whatever the fields are, so a
full `move_smart` push is free streaming plus reflection. -/
theorem move_smart_one_zero_charge (Δξ rb h : ℝ) (N : ℕ)
    (m xi yi pxo pyo exo eyo opx opy opz : ℝ) (Ex Ey Ez Bx By : ℤ → ℤ → ℝ) :
    move_smart_one Δξ rb h N m 0 xi yi pxo pyo exo eyo opx opy opz Ex Ey Ez Bx By
    = move_smart_reflect rb xi yi
        ⟨pxo + opx / (Real.sqrt (m ^ 2 + opz ^ 2 + opx ^ 2 + opy ^ 2) - opz) * Δξ,
         pyo + opy / (Real.sqrt (m ^ 2 + opz ^ 2 + opx ^ 2 + opy ^ 2) - opz) * Δξ,
         opx, opy, opz⟩ := by
  simp only [move_smart_one, move_smart_core]
  norm_num

/-- C4, counterexample.  In the zero-field, zero-beam state `prevCex`
(`m = 3`, `px = 4`, boundary `1/2`, unit steps), the particle free-streams to
`4/5 > 1/2`, reflects, and the step returns `px = -4`: the returned momentum
is NOT equal to its previous value, refuting the claim. -/
theorem step_zero_field_cex :
    (GPUMonolith.step gW (fun _ _ => 0) prevCex).px 0 0 ≠ prevCex.px 0 0 := by
  have hs : Real.sqrt ((3 : ℝ) ^ 2 + 0 ^ 2 + 4 ^ 2 + 0 ^ 2) = 5 := by
    rw [show (3 : ℝ) ^ 2 + 0 ^ 2 + 4 ^ 2 + 0 ^ 2 = 5 ^ 2 by norm_num, Real.sqrt_sq]
    norm_num
  have hq00 : gW.q 0 0 = 0 := rfl
  simp only [GPUMonolith.step, move_smart_arrays]
  rw [hq00, move_smart_one_zero_charge]
  have hm : gW.m 0 0 = 3 := rfl
  have hxi : gW.x_init 0 0 = 0 := rfl
  have hyi : gW.y_init 0 0 = 0 := rfl
  have hrb : gW.reflect_boundary = 1 / 2 := rfl
  have hdx : gW.xi_step_size = 1 := rfl
  have hpx : prevCex.px 0 0 = 4 := rfl
  have hpy : prevCex.py 0 0 = 0 := rfl
  have hpz : prevCex.pz 0 0 = 0 := rfl
  have hxo : prevCex.x_offt 0 0 = 0 := rfl
  have hyo : prevCex.y_offt 0 0 = 0 := rfl
  rw [hm, hxi, hyi, hrb, hdx, hpx, hpy, hpz, hxo, hyo, hs]
  simp only [move_smart_reflect]
  norm_num

/-! ### Discrete sine analysis for the Dirichlet solver (C5) -/

theorem circle_sum_zero (z : ℂ) (n : ℕ) (hz : z ≠ 1) (hzn : z ^ n = 1) :
    ∑ j ∈ Finset.range n, z ^ j = 0 := by
  rw [geom_sum_eq hz, hzn, sub_self, zero_div]

theorem not_dvd_of_abs_lt {n t : ℤ} (h0 : t ≠ 0) (hlt : |t| < n) : ¬ n ∣ t := by
  intro hdvd
  have h1 : |n| ≤ |t| :=
    Int.le_of_dvd (abs_pos.mpr h0) ((abs_dvd _ _).mpr ((dvd_abs _ _).mpr hdvd))
  have h2 : n ≤ |n| := le_abs_self n
  linarith

theorem cos_partial_sum (M : ℕ) (t : ℤ) (ht : ¬ ((2 * ((M : ℤ) + 1)) ∣ t)) :
    ∑ j ∈ Finset.Icc 1 M, Real.cos (Real.pi * t * j / ((M : ℝ) + 1))
      = -(1 + Real.cos (Real.pi * t)) / 2 := by
  set θ : ℝ := Real.pi * t / ((M : ℝ) + 1) with hθ
  set ω : ℂ := Complex.exp (θ * Complex.I) with hω
  have hM1R : ((M : ℝ) + 1) ≠ 0 := by positivity
  have hM1C : ((M : ℂ) + 1) ≠ 0 := Nat.cast_add_one_ne_zero M
  have hπ := Real.pi_ne_zero
  -- `ω` is a `(2M+2)`-th root of unity, not equal to `1`
  have hexp : ((2 * M + 2 : ℕ) : ℂ) * ((θ : ℝ) * Complex.I)
      = (t : ℂ) * (2 * (Real.pi : ℝ) * Complex.I) := by
    rw [hθ]
    push_cast
    field_simp
    ring
  have hωn : ω ^ (2 * M + 2) = 1 := by
    rw [hω, ← Complex.exp_nat_mul, hexp, Complex.exp_int_mul_two_pi_mul_I]
  have hω1 : ω ≠ 1 := by
    rw [hω, Ne, Complex.exp_eq_one_iff]
    rintro ⟨n, hn⟩
    apply ht
    have hθn : (θ : ℂ) = (n : ℂ) * (2 * (Real.pi : ℝ)) := by
      have h' : (θ : ℝ) * Complex.I = ((n : ℂ) * (2 * (Real.pi : ℝ))) * Complex.I := by
        rw [hn]
        ring
      exact mul_right_cancel₀ Complex.I_ne_zero h'
    have hθR : θ = (n : ℝ) * (2 * Real.pi) := by exact_mod_cast hθn
    rw [hθ] at hθR
    have hθR' : Real.pi * (t : ℝ) = (n : ℝ) * (2 * Real.pi) * ((M : ℝ) + 1) := by
      field_simp at hθR
      linarith [hθR]
    have ht' : (t : ℝ) = 2 * ((M : ℝ) + 1) * n := by
      have h2 : Real.pi * (t : ℝ) = Real.pi * (2 * ((M : ℝ) + 1) * n) := by
        linear_combination hθR'
      exact mul_left_cancel₀ hπ h2
    have htz : t = 2 * ((M : ℤ) + 1) * n := by exact_mod_cast ht'
    exact ⟨n, by linarith⟩
  have hsum0 := circle_sum_zero ω (2 * M + 2) hω1 hωn
  -- split the full circle sum
  have hIco1 : Finset.Ico 0 1 = {0} := by
    rw [Nat.Ico_succ_singleton]
  have hIcoM : Finset.Ico (M + 1) (M + 2) = {M + 1} := by
    rw [show M + 2 = (M + 1) + 1 by omega, Nat.Ico_succ_singleton]
  have hsplit : ∑ j ∈ Finset.range (2 * M + 2), ω ^ j
      = 1 + (∑ j ∈ Finset.Icc 1 M, ω ^ j) + ω ^ (M + 1)
        + ∑ j ∈ Finset.Ico (M + 2) (2 * M + 2), ω ^ j := by
    rw [Finset.range_eq_Ico,
      ← Finset.sum_Ico_consecutive (fun j => ω ^ j)
        (show 0 ≤ M + 2 by omega) (show M + 2 ≤ 2 * M + 2 by omega),
      ← Finset.sum_Ico_consecutive (fun j => ω ^ j)
        (show 0 ≤ M + 1 by omega) (show M + 1 ≤ M + 2 by omega),
      ← Finset.sum_Ico_consecutive (fun j => ω ^ j)
        (show 0 ≤ 1 by omega) (show 1 ≤ M + 1 by omega),
      hIco1, hIcoM, Finset.sum_singleton, Finset.sum_singleton, Nat.Ico_succ_right]
    ring
  -- reindex the tail as powers of the conjugate root
  have hexpn1 : Complex.exp (-(((2 * M + 2 : ℕ) : ℂ) * ((θ : ℝ) * Complex.I))) = 1 := by
    rw [Complex.exp_neg, hexp, Complex.exp_int_mul_two_pi_mul_I, inv_one]
  have htail : ∑ j ∈ Finset.Ico (M + 2) (2 * M + 2), ω ^ j
      = ∑ j ∈ Finset.Icc 1 M, Complex.exp (-((θ : ℝ) * Complex.I)) ^ j := by
    apply Finset.sum_nbij' (fun j => 2 * M + 2 - j) (fun j => 2 * M + 2 - j)
    · intro a ha
      simp only [Finset.mem_Ico] at ha
      simp only [Finset.mem_Icc]
      omega
    · intro a ha
      simp only [Finset.mem_Icc] at ha
      simp only [Finset.mem_Ico]
      omega
    · intro a ha
      simp only [Finset.mem_Ico] at ha
      omega
    · intro a ha
      simp only [Finset.mem_Icc] at ha
      omega
    · intro a ha
      simp only [Finset.mem_Ico] at ha
      rw [hω, ← Complex.exp_nat_mul, ← Complex.exp_nat_mul]
      have hcast : ((2 * M + 2 - a : ℕ) : ℂ) = ((2 * M + 2 : ℕ) : ℂ) - (a : ℂ) := by
        have : a ≤ 2 * M + 2 := by omega
        push_cast [Nat.cast_sub this]
        ring
      rw [hcast]
      have harg : (((2 * M + 2 : ℕ) : ℂ) - (a : ℂ)) * -((θ : ℝ) * Complex.I)
          = (a : ℂ) * ((θ : ℝ) * Complex.I)
            + -(((2 * M + 2 : ℕ) : ℂ) * ((θ : ℝ) * Complex.I)) := by
        ring
      rw [harg, Complex.exp_add, hexpn1, mul_one]
  -- combine the two interior sums into cosines
  have hterm : ∀ j : ℕ, ω ^ j + Complex.exp (-((θ : ℝ) * Complex.I)) ^ j
      = 2 * Complex.cos ((j : ℂ) * (θ : ℝ)) := by
    intro j
    rw [hω, ← Complex.exp_nat_mul, ← Complex.exp_nat_mul, Complex.two_cos]
    have e1 : (j : ℂ) * ((θ : ℝ) * Complex.I) = ((j : ℂ) * (θ : ℝ)) * Complex.I := by ring
    have e2 : (j : ℂ) * -((θ : ℝ) * Complex.I) = -((j : ℂ) * (θ : ℝ)) * Complex.I := by ring
    rw [e1, e2]
  -- the midpoint term
  have hmid : ω ^ (M + 1) = ((Real.cos (Real.pi * t) : ℝ) : ℂ) := by
    rw [hω, ← Complex.exp_nat_mul]
    have harg : ((M + 1 : ℕ) : ℂ) * ((θ : ℝ) * Complex.I)
        = ((Real.pi * t : ℝ) : ℂ) * Complex.I := by
      rw [hθ]
      push_cast
      field_simp
    rw [harg, Complex.exp_mul_I]
    have hsin : Real.sin (Real.pi * t) = 0 := by
      rw [mul_comm]
      exact Real.sin_int_mul_pi t
    rw [← Complex.ofReal_cos, ← Complex.ofReal_sin, hsin]
    simp
  -- assemble over ℂ and descend to ℝ
  have hcos : ∀ j : ℕ, Complex.cos ((j : ℂ) * (θ : ℝ))
      = ((Real.cos (j * θ) : ℝ) : ℂ) := by
    intro j
    rw [← Complex.ofReal_natCast, ← Complex.ofReal_mul, Complex.ofReal_cos]
  have hC : (0 : ℂ) = 1 + (∑ j ∈ Finset.Icc 1 M, 2 * ((Real.cos (j * θ) : ℝ) : ℂ))
      + ((Real.cos (Real.pi * t) : ℝ) : ℂ) := by
    have h1 : ∑ j ∈ Finset.Icc 1 M, ω ^ j
        + ∑ j ∈ Finset.Icc 1 M, Complex.exp (-((θ : ℝ) * Complex.I)) ^ j
        = ∑ j ∈ Finset.Icc 1 M, 2 * ((Real.cos (j * θ) : ℝ) : ℂ) := by
      rw [← Finset.sum_add_distrib]
      apply Finset.sum_congr rfl
      intro j _
      rw [hterm j, hcos j]
    calc (0 : ℂ) = ∑ j ∈ Finset.range (2 * M + 2), ω ^ j := hsum0.symm
      _ = 1 + (∑ j ∈ Finset.Icc 1 M, ω ^ j) + ω ^ (M + 1)
          + ∑ j ∈ Finset.Ico (M + 2) (2 * M + 2), ω ^ j := hsplit
      _ = 1 + ((∑ j ∈ Finset.Icc 1 M, ω ^ j)
          + ∑ j ∈ Finset.Icc 1 M, Complex.exp (-((θ : ℝ) * Complex.I)) ^ j)
          + ω ^ (M + 1) := by rw [htail]; ring
      _ = 1 + (∑ j ∈ Finset.Icc 1 M, 2 * ((Real.cos (j * θ) : ℝ) : ℂ))
          + ((Real.cos (Real.pi * t) : ℝ) : ℂ) := by rw [h1, hmid]
  have hR : (0 : ℝ) = 1 + (∑ j ∈ Finset.Icc 1 M, 2 * Real.cos (j * θ))
      + Real.cos (Real.pi * t) := by
    exact_mod_cast hC
  have hargs : ∀ j ∈ Finset.Icc 1 M,
      Real.cos (Real.pi * t * j / ((M : ℝ) + 1)) = Real.cos (j * θ) := by
    intro j _
    exact congrArg Real.cos (by rw [hθ]; ring)
  rw [Finset.sum_congr rfl hargs]
  have hsum2 : ∑ j ∈ Finset.Icc 1 M, 2 * Real.cos (j * θ)
      = 2 * ∑ j ∈ Finset.Icc 1 M, Real.cos (j * θ) := by
    rw [Finset.mul_sum]
  rw [hsum2] at hR
  linarith

theorem exp_sub_exp_sin (z : ℂ) :
    Complex.exp (-z * Complex.I) - Complex.exp (z * Complex.I)
      = -2 * Complex.I * Complex.sin z := by
  have h := Complex.two_sin z
  linear_combination Complex.I * h
    + (Complex.exp (-z * Complex.I) - Complex.exp (z * Complex.I)) * Complex.I_sq

theorem sum_range_split_pad (M : ℕ) (g : ℕ → ℂ) (h0 : g 0 = 0) (hM : g (M + 1) = 0) :
    ∑ x ∈ Finset.range (2 * M + 2), g x
      = ∑ x ∈ Finset.Icc 1 M, g x + ∑ x ∈ Finset.Icc 1 M, g (2 * M + 2 - x) := by
  have hIco1 : Finset.Ico 0 1 = {0} := by rw [Nat.Ico_succ_singleton]
  have hIcoM : Finset.Ico (M + 1) (M + 2) = {M + 1} := by
    rw [show M + 2 = (M + 1) + 1 by omega, Nat.Ico_succ_singleton]
  have htail : ∑ x ∈ Finset.Ico (M + 2) (2 * M + 2), g x
      = ∑ x ∈ Finset.Icc 1 M, g (2 * M + 2 - x) := by
    apply Finset.sum_nbij' (fun x => 2 * M + 2 - x) (fun x => 2 * M + 2 - x)
    · intro a ha
      simp only [Finset.mem_Ico] at ha
      simp only [Finset.mem_Icc]
      omega
    · intro a ha
      simp only [Finset.mem_Icc] at ha
      simp only [Finset.mem_Ico]
      omega
    · intro a ha
      simp only [Finset.mem_Ico] at ha
      omega
    · intro a ha
      simp only [Finset.mem_Icc] at ha
      omega
    · intro a ha
      simp only [Finset.mem_Ico] at ha
      exact congrArg g (by omega)
  rw [Finset.range_eq_Ico,
    ← Finset.sum_Ico_consecutive g (show 0 ≤ M + 2 by omega)
      (show M + 2 ≤ 2 * M + 2 by omega),
    ← Finset.sum_Ico_consecutive g (show 0 ≤ M + 1 by omega)
      (show M + 1 ≤ M + 2 by omega),
    ← Finset.sum_Ico_consecutive g (show 0 ≤ 1 by omega)
      (show 1 ≤ M + 1 by omega),
    hIco1, hIcoM, Finset.sum_singleton, Finset.sum_singleton, Nat.Ico_succ_right,
    h0, hM, htail]
  ring

theorem exp_diff_sin (M K u : ℕ) (hu : u ≤ 2 * M + 2) :
    Complex.exp (-(2 * (Real.pi : ℂ) * Complex.I * ((K * u : ℕ) : ℂ))
        / ((2 * M + 2 : ℕ) : ℂ))
      - Complex.exp (-(2 * (Real.pi : ℂ) * Complex.I * ((K * (2 * M + 2 - u) : ℕ) : ℂ))
        / ((2 * M + 2 : ℕ) : ℂ))
      = -2 * Complex.I
        * ((Real.sin (Real.pi * K * u / ((M : ℝ) + 1)) : ℝ) : ℂ) := by
  have hM1C : ((M : ℂ) + 1) ≠ 0 := Nat.cast_add_one_ne_zero M
  have hn0 : ((2 * M + 2 : ℕ) : ℂ) ≠ 0 := Nat.cast_ne_zero.mpr (by omega)
  have h1 : -(2 * (Real.pi : ℂ) * Complex.I * ((K * u : ℕ) : ℂ)) / ((2 * M + 2 : ℕ) : ℂ)
      = -(((Real.pi * K * u / ((M : ℝ) + 1) : ℝ) : ℂ)) * Complex.I := by
    rw [div_eq_iff hn0]
    push_cast
    field_simp [hM1C]
    ring
  have h2 : -(2 * (Real.pi : ℂ) * Complex.I * ((K * (2 * M + 2 - u) : ℕ) : ℂ))
        / ((2 * M + 2 : ℕ) : ℂ)
      = ((-(K : ℤ) : ℤ) : ℂ) * (2 * (Real.pi : ℝ) * Complex.I)
        + (((Real.pi * K * u / ((M : ℝ) + 1) : ℝ) : ℂ)) * Complex.I := by
    have hcast : ((K * (2 * M + 2 - u) : ℕ) : ℂ)
        = (K : ℂ) * ((2 * M + 2 : ℕ) : ℂ) - (K : ℂ) * (u : ℂ) := by
      push_cast [Nat.cast_sub hu]
      ring
    rw [div_eq_iff hn0, hcast]
    push_cast
    field_simp [hM1C]
    ring
  rw [h1, h2, Complex.exp_add, Complex.exp_int_mul_two_pi_mul_I, one_mul,
    Complex.ofReal_sin]
  exact exp_sub_exp_sin _

theorem dstPad_x0 (M : ℕ) (a : ℕ → ℕ → ℝ) (y : ℕ) : dstPad M a 0 y = 0 := by
  simp only [dstPad]
  rw [if_neg (by omega), if_neg (by omega), if_neg (by omega), if_neg (by omega)]

theorem dstPad_xM1 (M : ℕ) (a : ℕ → ℕ → ℝ) (y : ℕ) : dstPad M a (M + 1) y = 0 := by
  simp only [dstPad]
  rw [if_neg (by omega), if_neg (by omega), if_neg (by omega), if_neg (by omega)]

theorem dstPad_y0 (M : ℕ) (a : ℕ → ℕ → ℝ) (x : ℕ) : dstPad M a x 0 = 0 := by
  simp only [dstPad]
  rw [if_neg (by omega), if_neg (by omega), if_neg (by omega), if_neg (by omega)]

theorem dstPad_yM1 (M : ℕ) (a : ℕ → ℕ → ℝ) (x : ℕ) : dstPad M a x (M + 1) = 0 := by
  simp only [dstPad]
  rw [if_neg (by omega), if_neg (by omega), if_neg (by omega), if_neg (by omega)]

theorem dstPad_in (M : ℕ) (a : ℕ → ℕ → ℝ) (x y : ℕ)
    (hx : 1 ≤ x) (hx' : x ≤ M) (hy : 1 ≤ y) (hy' : y ≤ M) :
    dstPad M a x y = a (x - 1) (y - 1) := by
  simp only [dstPad]
  rw [if_pos (by omega)]

theorem dstPad_fy (M : ℕ) (a : ℕ → ℕ → ℝ) (x y : ℕ)
    (hx : 1 ≤ x) (hx' : x ≤ M) (hy : 1 ≤ y) (hy' : y ≤ M) :
    dstPad M a x (2 * M + 2 - y) = -(a (x - 1) (y - 1)) := by
  simp only [dstPad]
  rw [if_neg (by omega), if_pos (by omega),
    show 2 * M + 1 - (2 * M + 2 - y) = y - 1 by omega]

theorem dstPad_fx (M : ℕ) (a : ℕ → ℕ → ℝ) (x y : ℕ)
    (hx : 1 ≤ x) (hx' : x ≤ M) (hy : 1 ≤ y) (hy' : y ≤ M) :
    dstPad M a (2 * M + 2 - x) y = -(a (x - 1) (y - 1)) := by
  simp only [dstPad]
  rw [if_neg (by omega), if_neg (by omega), if_pos (by omega),
    show 2 * M + 1 - (2 * M + 2 - x) = x - 1 by omega]

theorem dstPad_ff (M : ℕ) (a : ℕ → ℕ → ℝ) (x y : ℕ)
    (hx : 1 ≤ x) (hx' : x ≤ M) (hy : 1 ≤ y) (hy' : y ≤ M) :
    dstPad M a (2 * M + 2 - x) (2 * M + 2 - y) = a (x - 1) (y - 1) := by
  simp only [dstPad]
  rw [if_neg (by omega), if_neg (by omega), if_neg (by omega), if_pos (by omega),
    show 2 * M + 1 - (2 * M + 2 - x) = x - 1 by omega,
    show 2 * M + 1 - (2 * M + 2 - y) = y - 1 by omega]

theorem sum_range_split_pad2 (M : ℕ) (f : ℕ → ℕ → ℂ)
    (hx0 : ∀ y, f 0 y = 0) (hxM : ∀ y, f (M + 1) y = 0)
    (hy0 : ∀ x, f x 0 = 0) (hyM : ∀ x, f x (M + 1) = 0) :
    ∑ x ∈ Finset.range (2 * M + 2), ∑ y ∈ Finset.range (2 * M + 2), f x y
      = ∑ x ∈ Finset.Icc 1 M, ∑ y ∈ Finset.Icc 1 M,
          (f x y + f x (2 * M + 2 - y) + f (2 * M + 2 - x) y
            + f (2 * M + 2 - x) (2 * M + 2 - y)) := by
  have hrow : ∀ x : ℕ, ∑ y ∈ Finset.range (2 * M + 2), f x y
      = ∑ y ∈ Finset.Icc 1 M, (f x y + f x (2 * M + 2 - y)) := by
    intro x
    rw [sum_range_split_pad M (fun y => f x y) (hy0 x) (hyM x),
      ← Finset.sum_add_distrib]
  rw [sum_range_split_pad M (fun x => ∑ y ∈ Finset.range (2 * M + 2), f x y)
      (Finset.sum_eq_zero fun y _ => hx0 y) (Finset.sum_eq_zero fun y _ => hxM y)]
  rw [← Finset.sum_add_distrib]
  apply Finset.sum_congr rfl
  intro x _
  rw [hrow x, hrow (2 * M + 2 - x), ← Finset.sum_add_distrib]
  apply Finset.sum_congr rfl
  intro y _
  ring

theorem dst2d_eq_sine_sum (M : ℕ) (a : ℕ → ℕ → ℝ) (k l : ℕ) :
    dst2d M a k l
      = 4 * ∑ x ∈ Finset.Icc 1 M, ∑ y ∈ Finset.Icc 1 M,
          a (x - 1) (y - 1)
            * Real.sin (Real.pi * ((k + 1 : ℕ) : ℝ) * x / ((M : ℝ) + 1))
            * Real.sin (Real.pi * ((l + 1 : ℕ) : ℝ) * y / ((M : ℝ) + 1)) := by
  have hz : ∀ (r : ℝ) (c : ℂ), r = 0 → (r : ℂ) * c = 0 := by
    intro r c hr
    rw [hr]
    simp
  have hsep : ∀ u v : ℕ,
      Complex.exp (-(2 * (Real.pi : ℂ) * Complex.I
          * ((((k + 1) * u : ℕ) : ℂ) + (((l + 1) * v : ℕ) : ℂ)))
        / ((2 * M + 2 : ℕ) : ℂ))
      = Complex.exp (-(2 * (Real.pi : ℂ) * Complex.I * (((k + 1) * u : ℕ) : ℂ))
          / ((2 * M + 2 : ℕ) : ℂ))
        * Complex.exp (-(2 * (Real.pi : ℂ) * Complex.I * (((l + 1) * v : ℕ) : ℂ))
          / ((2 * M + 2 : ℕ) : ℂ)) := by
    intro u v
    rw [← Complex.exp_add]
    congr 1
    ring
  have hmain : ∑ x ∈ Finset.range (2 * M + 2), ∑ y ∈ Finset.range (2 * M + 2),
      ((dstPad M a x y : ℝ) : ℂ)
        * Complex.exp (-(2 * (Real.pi : ℂ) * Complex.I
            * ((((k + 1) * x : ℕ) : ℂ) + (((l + 1) * y : ℕ) : ℂ)))
          / ((2 * M + 2 : ℕ) : ℂ))
      = ((∑ x ∈ Finset.Icc 1 M, ∑ y ∈ Finset.Icc 1 M,
          (-4) * (a (x - 1) (y - 1)
            * Real.sin (Real.pi * ((k + 1 : ℕ) : ℝ) * x / ((M : ℝ) + 1))
            * Real.sin (Real.pi * ((l + 1 : ℕ) : ℝ) * y / ((M : ℝ) + 1))) : ℝ) : ℂ) := by
    rw [sum_range_split_pad2 M
        (fun x y => ((dstPad M a x y : ℝ) : ℂ)
          * Complex.exp (-(2 * (Real.pi : ℂ) * Complex.I
              * ((((k + 1) * x : ℕ) : ℂ) + (((l + 1) * y : ℕ) : ℂ)))
            / ((2 * M + 2 : ℕ) : ℂ)))
        (fun y => hz _ _ (dstPad_x0 M a y)) (fun y => hz _ _ (dstPad_xM1 M a y))
        (fun x => hz _ _ (dstPad_y0 M a x)) (fun x => hz _ _ (dstPad_yM1 M a x))]
    simp only [Complex.ofReal_sum]
    apply Finset.sum_congr rfl
    intro x hx
    apply Finset.sum_congr rfl
    intro y hy
    simp only [Finset.mem_Icc] at hx hy
    obtain ⟨hx1, hx2⟩ := hx
    obtain ⟨hy1, hy2⟩ := hy
    rw [dstPad_in M a x y hx1 hx2 hy1 hy2, dstPad_fy M a x y hx1 hx2 hy1 hy2,
      dstPad_fx M a x y hx1 hx2 hy1 hy2, dstPad_ff M a x y hx1 hx2 hy1 hy2]
    simp only [Complex.ofReal_neg]
    rw [hsep x y, hsep x (2 * M + 2 - y), hsep (2 * M + 2 - x) y,
      hsep (2 * M + 2 - x) (2 * M + 2 - y)]
    have hdx := exp_diff_sin M (k + 1) x (by omega)
    have hdy := exp_diff_sin M (l + 1) y (by omega)
    simp only [Complex.ofReal_mul, Complex.ofReal_neg, Complex.ofReal_ofNat]
    linear_combination
      (((a (x - 1) (y - 1) : ℝ) : ℂ)
        * (Complex.exp (-(2 * (Real.pi : ℂ) * Complex.I * (((l + 1) * y : ℕ) : ℂ))
            / ((2 * M + 2 : ℕ) : ℂ))
          - Complex.exp (-(2 * (Real.pi : ℂ) * Complex.I
              * (((l + 1) * (2 * M + 2 - y) : ℕ) : ℂ))
            / ((2 * M + 2 : ℕ) : ℂ)))) * hdx
      + (-2 * Complex.I
          * ((Real.sin (Real.pi * ((k + 1 : ℕ) : ℝ) * (x : ℝ) / ((M : ℝ) + 1)) : ℝ) : ℂ)
          * ((a (x - 1) (y - 1) : ℝ) : ℂ)) * hdy
      + (4 * ((a (x - 1) (y - 1) : ℝ) : ℂ)
          * ((Real.sin (Real.pi * ((k + 1 : ℕ) : ℝ) * (x : ℝ) / ((M : ℝ) + 1)) : ℝ) : ℂ)
          * ((Real.sin (Real.pi * ((l + 1 : ℕ) : ℝ) * (y : ℝ) / ((M : ℝ) + 1)) : ℝ) : ℂ))
        * Complex.I_sq
  simp only [dst2d, dft2]
  rw [hmain, Complex.ofReal_re]
  rw [← Finset.sum_neg_distrib, Finset.mul_sum]
  apply Finset.sum_congr rfl
  intro x _
  rw [← Finset.sum_neg_distrib, Finset.mul_sum]
  apply Finset.sum_congr rfl
  intro y _
  ring

theorem sin_orthogonality (M a b : ℕ) (ha1 : 1 ≤ a) (haM : a ≤ M) (hb1 : 1 ≤ b) (hbM : b ≤ M) :
    ∑ j ∈ Finset.Icc 1 M,
        Real.sin (Real.pi * a * j / ((M : ℝ) + 1)) * Real.sin (Real.pi * b * j / ((M : ℝ) + 1))
      = if a = b then ((M : ℝ) + 1) / 2 else 0 := by
  have hps : ∀ j : ℕ,
      Real.sin (Real.pi * a * j / ((M : ℝ) + 1)) * Real.sin (Real.pi * b * j / ((M : ℝ) + 1))
        = (Real.cos (Real.pi * (((a : ℤ) - (b : ℤ) : ℤ) : ℝ) * j / ((M : ℝ) + 1))
            - Real.cos (Real.pi * (((a : ℤ) + (b : ℤ) : ℤ) : ℝ) * j / ((M : ℝ) + 1))) / 2 := by
    intro j
    have h1 : Real.pi * (((a : ℤ) - (b : ℤ) : ℤ) : ℝ) * j / ((M : ℝ) + 1)
        = Real.pi * a * j / ((M : ℝ) + 1) - Real.pi * b * j / ((M : ℝ) + 1) := by
      push_cast
      ring
    have h2 : Real.pi * (((a : ℤ) + (b : ℤ) : ℤ) : ℝ) * j / ((M : ℝ) + 1)
        = Real.pi * a * j / ((M : ℝ) + 1) + Real.pi * b * j / ((M : ℝ) + 1) := by
      push_cast
      ring
    rw [h1, h2, Real.cos_sub_cos,
      show (Real.pi * (a : ℝ) * j / ((M : ℝ) + 1) - Real.pi * (b : ℝ) * j / ((M : ℝ) + 1)
          + (Real.pi * (a : ℝ) * j / ((M : ℝ) + 1) + Real.pi * (b : ℝ) * j / ((M : ℝ) + 1))) / 2
        = Real.pi * (a : ℝ) * j / ((M : ℝ) + 1) by ring,
      show (Real.pi * (a : ℝ) * j / ((M : ℝ) + 1) - Real.pi * (b : ℝ) * j / ((M : ℝ) + 1)
          - (Real.pi * (a : ℝ) * j / ((M : ℝ) + 1) + Real.pi * (b : ℝ) * j / ((M : ℝ) + 1))) / 2
        = -(Real.pi * (b : ℝ) * j / ((M : ℝ) + 1)) by ring,
      Real.sin_neg]
    ring
  rw [Finset.sum_congr rfl (fun j _ => hps j), ← Finset.sum_div, Finset.sum_sub_distrib]
  by_cases hab : a = b
  · subst hab
    rw [if_pos rfl]
    have hz1 : ∀ j ∈ Finset.Icc 1 M,
        Real.cos (Real.pi * (((a : ℤ) - (a : ℤ) : ℤ) : ℝ) * j / ((M : ℝ) + 1)) = (1 : ℝ) := by
      intro j _
      simp
    rw [Finset.sum_congr rfl hz1, Finset.sum_const, Nat.card_Icc]
    have ht2 : ¬ ((2 * ((M : ℤ) + 1)) ∣ ((a : ℤ) + (a : ℤ))) := by
      apply not_dvd_of_abs_lt
      · omega
      · rw [abs_of_nonneg (by positivity)]
        omega
    rw [cos_partial_sum M ((a : ℤ) + (a : ℤ)) ht2]
    have hc1 : Real.cos (Real.pi * (((a : ℤ) + (a : ℤ) : ℤ) : ℝ)) = 1 := by
      rw [show Real.pi * (((a : ℤ) + (a : ℤ) : ℤ) : ℝ) = ((a : ℤ) : ℝ) * (2 * Real.pi) by
        push_cast
        ring]
      exact Real.cos_int_mul_two_pi a
    rw [hc1]
    simp only [nsmul_eq_mul, Nat.add_sub_cancel, mul_one]
    norm_num
  · rw [if_neg hab]
    have ht1 : ¬ ((2 * ((M : ℤ) + 1)) ∣ ((a : ℤ) - (b : ℤ))) := by
      apply not_dvd_of_abs_lt
      · omega
      · rw [abs_lt]
        omega
    have ht2 : ¬ ((2 * ((M : ℤ) + 1)) ∣ ((a : ℤ) + (b : ℤ))) := by
      apply not_dvd_of_abs_lt
      · omega
      · rw [abs_of_nonneg (by positivity)]
        omega
    rw [cos_partial_sum M ((a : ℤ) - (b : ℤ)) ht1, cos_partial_sum M ((a : ℤ) + (b : ℤ)) ht2]
    have hcc : Real.cos (Real.pi * (((a : ℤ) + (b : ℤ) : ℤ) : ℝ))
        = Real.cos (Real.pi * (((a : ℤ) - (b : ℤ) : ℤ) : ℝ)) := by
      rw [show Real.pi * (((a : ℤ) + (b : ℤ) : ℤ) : ℝ)
          = Real.pi * (((a : ℤ) - (b : ℤ) : ℤ) : ℝ) + (b : ℤ) * (2 * Real.pi) by
        push_cast
        ring]
      exact Real.cos_add_int_mul_two_pi _ b
    rw [hcc]
    ring

theorem sum4_swap {P : ℕ → ℕ → ℕ → ℕ → ℝ} (s t : Finset ℕ) :
    ∑ x ∈ s, ∑ y ∈ s, ∑ u ∈ t, ∑ v ∈ t, P x y u v
      = ∑ u ∈ t, ∑ v ∈ t, ∑ x ∈ s, ∑ y ∈ s, P x y u v :=
  calc ∑ x ∈ s, ∑ y ∈ s, ∑ u ∈ t, ∑ v ∈ t, P x y u v
      = ∑ x ∈ s, ∑ u ∈ t, ∑ y ∈ s, ∑ v ∈ t, P x y u v :=
        Finset.sum_congr rfl fun _ _ => Finset.sum_comm
    _ = ∑ u ∈ t, ∑ x ∈ s, ∑ y ∈ s, ∑ v ∈ t, P x y u v := Finset.sum_comm
    _ = ∑ u ∈ t, ∑ x ∈ s, ∑ v ∈ t, ∑ y ∈ s, P x y u v :=
        Finset.sum_congr rfl fun _ _ => Finset.sum_congr rfl fun _ _ => Finset.sum_comm
    _ = ∑ u ∈ t, ∑ v ∈ t, ∑ x ∈ s, ∑ y ∈ s, P x y u v :=
        Finset.sum_congr rfl fun _ _ => Finset.sum_comm

theorem double_sine_inversion (M : ℕ) (r : ℕ → ℕ → ℝ) (G1 G2 : ℕ)
    (hG11 : 1 ≤ G1) (hG1M : G1 ≤ M) (hG21 : 1 ≤ G2) (hG2M : G2 ≤ M) :
    ∑ x ∈ Finset.Icc 1 M, ∑ y ∈ Finset.Icc 1 M,
        (∑ u ∈ Finset.Icc 1 M, ∑ v ∈ Finset.Icc 1 M, r u v
            * Real.sin (Real.pi * u * x / ((M : ℝ) + 1))
            * Real.sin (Real.pi * v * y / ((M : ℝ) + 1)))
          * Real.sin (Real.pi * G1 * x / ((M : ℝ) + 1))
          * Real.sin (Real.pi * G2 * y / ((M : ℝ) + 1))
      = (((M : ℝ) + 1) / 2) ^ 2 * r G1 G2 := by
  have hA : ∀ x y : ℕ,
      (∑ u ∈ Finset.Icc 1 M, ∑ v ∈ Finset.Icc 1 M, r u v
          * Real.sin (Real.pi * u * x / ((M : ℝ) + 1))
          * Real.sin (Real.pi * v * y / ((M : ℝ) + 1)))
        * Real.sin (Real.pi * G1 * x / ((M : ℝ) + 1))
        * Real.sin (Real.pi * G2 * y / ((M : ℝ) + 1))
      = ∑ u ∈ Finset.Icc 1 M, ∑ v ∈ Finset.Icc 1 M, r u v
          * Real.sin (Real.pi * u * x / ((M : ℝ) + 1))
          * Real.sin (Real.pi * v * y / ((M : ℝ) + 1))
          * Real.sin (Real.pi * G1 * x / ((M : ℝ) + 1))
          * Real.sin (Real.pi * G2 * y / ((M : ℝ) + 1)) := by
    intro x y
    rw [Finset.sum_mul, Finset.sum_mul]
    apply Finset.sum_congr rfl
    intro u _
    rw [Finset.sum_mul, Finset.sum_mul]
  rw [Finset.sum_congr rfl fun x _ => Finset.sum_congr rfl fun y _ => hA x y,
    sum4_swap (Finset.Icc 1 M) (Finset.Icc 1 M)]
  have hD : ∀ u ∈ Finset.Icc 1 M, ∀ v ∈ Finset.Icc 1 M,
      ∑ x ∈ Finset.Icc 1 M, ∑ y ∈ Finset.Icc 1 M, r u v
          * Real.sin (Real.pi * u * x / ((M : ℝ) + 1))
          * Real.sin (Real.pi * v * y / ((M : ℝ) + 1))
          * Real.sin (Real.pi * G1 * x / ((M : ℝ) + 1))
          * Real.sin (Real.pi * G2 * y / ((M : ℝ) + 1))
        = r u v * ((if u = G1 then ((M : ℝ) + 1) / 2 else 0)
            * (if v = G2 then ((M : ℝ) + 1) / 2 else 0)) := by
    intro u hu v hv
    simp only [Finset.mem_Icc] at hu hv
    have hx := sin_orthogonality M u G1 hu.1 hu.2 hG11 hG1M
    have hy := sin_orthogonality M v G2 hv.1 hv.2 hG21 hG2M
    calc ∑ x ∈ Finset.Icc 1 M, ∑ y ∈ Finset.Icc 1 M, r u v
            * Real.sin (Real.pi * u * x / ((M : ℝ) + 1))
            * Real.sin (Real.pi * v * y / ((M : ℝ) + 1))
            * Real.sin (Real.pi * G1 * x / ((M : ℝ) + 1))
            * Real.sin (Real.pi * G2 * y / ((M : ℝ) + 1))
        = r u v * ((∑ x ∈ Finset.Icc 1 M,
              Real.sin (Real.pi * u * x / ((M : ℝ) + 1))
                * Real.sin (Real.pi * G1 * x / ((M : ℝ) + 1)))
            * (∑ y ∈ Finset.Icc 1 M,
              Real.sin (Real.pi * v * y / ((M : ℝ) + 1))
                * Real.sin (Real.pi * G2 * y / ((M : ℝ) + 1)))) := by
          rw [Finset.sum_mul_sum, Finset.mul_sum]
          apply Finset.sum_congr rfl
          intro x _
          rw [Finset.mul_sum]
          apply Finset.sum_congr rfl
          intro y _
          ring
      _ = r u v * ((if u = G1 then ((M : ℝ) + 1) / 2 else 0)
            * (if v = G2 then ((M : ℝ) + 1) / 2 else 0)) := by rw [hx, hy]
  rw [Finset.sum_congr rfl fun u hu => Finset.sum_congr rfl fun v hv => hD u hu v hv]
  have hcol : ∀ u ∈ Finset.Icc 1 M,
      ∑ v ∈ Finset.Icc 1 M, r u v * ((if u = G1 then ((M : ℝ) + 1) / 2 else 0)
          * (if v = G2 then ((M : ℝ) + 1) / 2 else 0))
        = if u = G1 then r u G2 * (((M : ℝ) + 1) / 2) * (((M : ℝ) + 1) / 2) else 0 := by
    intro u _
    by_cases hu : u = G1
    · have hterm : ∀ v ∈ Finset.Icc 1 M,
          r u v * ((if u = G1 then ((M : ℝ) + 1) / 2 else 0)
              * (if v = G2 then ((M : ℝ) + 1) / 2 else 0))
            = if v = G2 then r u v * (((M : ℝ) + 1) / 2) * (((M : ℝ) + 1) / 2) else 0 := by
        intro v _
        by_cases hv : v = G2
        · rw [if_pos hu, if_pos hv, if_pos hv]
          ring
        · rw [if_neg hv, if_neg hv]
          ring
      rw [Finset.sum_congr rfl hterm,
        Finset.sum_ite_eq' (Finset.Icc 1 M) G2
          (fun v => r u v * (((M : ℝ) + 1) / 2) * (((M : ℝ) + 1) / 2)),
        if_pos (Finset.mem_Icc.mpr ⟨hG21, hG2M⟩), if_pos hu]
    · rw [if_neg hu, if_neg hu]
      apply Finset.sum_eq_zero
      intro v _
      rw [zero_mul, mul_zero]
  rw [Finset.sum_congr rfl hcol,
    Finset.sum_ite_eq' (Finset.Icc 1 M) G1
      (fun u => r u G2 * (((M : ℝ) + 1) / 2) * (((M : ℝ) + 1) / 2)),
    if_pos (Finset.mem_Icc.mpr ⟨hG11, hG1M⟩)]
  ring

theorem dirichlet_solve_series (N : ℕ) (h : ℝ) (rhs : ℕ → ℕ → ℝ) (hN : 2 ≤ N)
    (gi gj : ℤ) (hgi0 : 0 ≤ gi) (hgi1 : gi ≤ (N : ℤ) - 1)
    (hgj0 : 0 ≤ gj) (hgj1 : gj ≤ (N : ℤ) - 1) :
    dirichlet_solve N h rhs gi gj
      = ∑ x ∈ Finset.Icc 1 (N - 2), ∑ y ∈ Finset.Icc 1 (N - 2),
          4 * dst2d (N - 2) rhs (x - 1) (y - 1) * dirichlet_mul N h (x - 1) (y - 1)
            * Real.sin (Real.pi * (gi : ℝ) * x / (((N - 2 : ℕ) : ℝ) + 1))
            * Real.sin (Real.pi * (gj : ℝ) * y / (((N - 2 : ℕ) : ℝ) + 1)) := by
  have hD : (((N - 2 : ℕ) : ℝ) + 1) = (N : ℝ) - 1 := by
    push_cast [Nat.cast_sub hN]
    ring
  have hNe : ((N : ℝ) - 1) ≠ 0 := by
    have h2 : (2 : ℝ) ≤ (N : ℝ) := by exact_mod_cast hN
    linarith
  by_cases hi : 1 ≤ gi ∧ gi ≤ (N : ℤ) - 2
  · by_cases hj : 1 ≤ gj ∧ gj ≤ (N : ℤ) - 2
    · simp only [dirichlet_solve, padInner]
      rw [if_pos ⟨hi.1, hi.2, hj.1, hj.2⟩, dst2d_eq_sine_sum]
      have e1 : (((gi - 1).toNat + 1 : ℕ) : ℝ) = (gi : ℝ) := by
        have h1 : (((gi - 1).toNat : ℕ) : ℤ) = gi - 1 := Int.toNat_of_nonneg (by omega)
        have h2 : (((gi - 1).toNat : ℕ) : ℝ) = (gi : ℝ) - 1 := by exact_mod_cast h1
        push_cast
        linarith
      have e2 : (((gj - 1).toNat + 1 : ℕ) : ℝ) = (gj : ℝ) := by
        have h1 : (((gj - 1).toNat : ℕ) : ℤ) = gj - 1 := Int.toNat_of_nonneg (by omega)
        have h2 : (((gj - 1).toNat : ℕ) : ℝ) = (gj : ℝ) - 1 := by exact_mod_cast h1
        push_cast
        linarith
      rw [e1, e2, Finset.mul_sum]
      apply Finset.sum_congr rfl
      intro x _
      rw [Finset.mul_sum]
      apply Finset.sum_congr rfl
      intro y _
      ring
    · simp only [dirichlet_solve, padInner]
      rw [if_neg (by omega)]
      symm
      apply Finset.sum_eq_zero
      intro x _
      apply Finset.sum_eq_zero
      intro y _
      have hgj : gj = 0 ∨ gj = (N : ℤ) - 1 := by omega
      rcases hgj with hgj | hgj
      · subst hgj
        simp
      · subst hgj
        have hsin : Real.sin (Real.pi * (((N : ℤ) - 1 : ℤ) : ℝ) * (y : ℝ)
            / (((N - 2 : ℕ) : ℝ) + 1)) = 0 := by
          have harg : Real.pi * (((N : ℤ) - 1 : ℤ) : ℝ) * (y : ℝ) / (((N - 2 : ℕ) : ℝ) + 1)
              = (y : ℝ) * Real.pi := by
            rw [hD]
            push_cast
            field_simp [hNe]
            ring
          rw [harg]
          exact Real.sin_nat_mul_pi y
        rw [hsin, mul_zero]
  · simp only [dirichlet_solve, padInner]
    rw [if_neg (by omega)]
    symm
    apply Finset.sum_eq_zero
    intro x _
    apply Finset.sum_eq_zero
    intro y _
    have hgi : gi = 0 ∨ gi = (N : ℤ) - 1 := by omega
    rcases hgi with hgi | hgi
    · subst hgi
      simp
    · subst hgi
      have hsin : Real.sin (Real.pi * (((N : ℤ) - 1 : ℤ) : ℝ) * (x : ℝ)
          / (((N - 2 : ℕ) : ℝ) + 1)) = 0 := by
        have harg : Real.pi * (((N : ℤ) - 1 : ℤ) : ℝ) * (x : ℝ) / (((N - 2 : ℕ) : ℝ) + 1)
            = (x : ℝ) * Real.pi := by
          rw [hD]
          push_cast
          field_simp [hNe]
          ring
        rw [harg]
        exact Real.sin_nat_mul_pi x
      rw [hsin, mul_zero, zero_mul]

theorem sum_lin5 {s : Finset ℕ} {f1 f2 f3 f4 f5 g : ℕ → ℝ}
    (hdiv : ∀ i ∈ s, f1 i + f2 i + f3 i + f4 i - 4 * f5 i = g i) :
    (∑ i ∈ s, f1 i) + (∑ i ∈ s, f2 i) + (∑ i ∈ s, f3 i) + (∑ i ∈ s, f4 i)
      - 4 * (∑ i ∈ s, f5 i) = ∑ i ∈ s, g i := by
  rw [Finset.mul_sum, ← Finset.sum_add_distrib, ← Finset.sum_add_distrib,
    ← Finset.sum_add_distrib, ← Finset.sum_sub_distrib]
  exact Finset.sum_congr rfl hdiv

theorem lamb_pos (N : ℕ) (h : ℝ) (k : ℕ) (hN : 3 ≤ N) (hh : h ≠ 0)
    (hk1 : 1 ≤ k) (hk2 : k ≤ N - 2) : 0 < lamb N h k := by
  have hNR : (3 : ℝ) ≤ (N : ℝ) := by exact_mod_cast hN
  have hh2 : 0 < h ^ 2 := lt_of_le_of_ne (sq_nonneg h) (Ne.symm (pow_ne_zero 2 hh))
  have hkN : (k : ℝ) ≤ (N : ℝ) - 2 := by
    have h1 : ((k : ℕ) : ℝ) ≤ ((N - 2 : ℕ) : ℝ) := by exact_mod_cast hk2
    rw [show ((N - 2 : ℕ) : ℝ) = (N : ℝ) - 2 by
      push_cast [Nat.cast_sub (show 2 ≤ N by omega)]
      ring] at h1
    exact h1
  have hk1R : (1 : ℝ) ≤ (k : ℝ) := by exact_mod_cast hk1
  have hpi := Real.pi_pos
  simp only [lamb]
  apply mul_pos
  · exact div_pos (by norm_num) hh2
  · have hs : 0 < Real.sin ((k : ℝ) * Real.pi / (2 * ((N : ℝ) - 1))) := by
      apply Real.sin_pos_of_pos_of_lt_pi
      · apply div_pos
        · nlinarith
        · linarith
      · rw [div_lt_iff₀ (by linarith : (0 : ℝ) < 2 * ((N : ℝ) - 1))]
        nlinarith
    exact pow_pos hs 2

theorem lamb_cos (N : ℕ) (h : ℝ) (k : ℕ) (hN : 3 ≤ N) (hh : h ≠ 0) :
    Real.cos (Real.pi * (k : ℝ) / (((N - 2 : ℕ) : ℝ) + 1))
      = 1 - lamb N h k * h ^ 2 / 2 := by
  have hN2 : 2 ≤ N := by omega
  have hD : (((N - 2 : ℕ) : ℝ) + 1) = (N : ℝ) - 1 := by
    push_cast [Nat.cast_sub hN2]
    ring
  have hNR : (3 : ℝ) ≤ (N : ℝ) := by exact_mod_cast hN
  have hNe : ((N : ℝ) - 1) ≠ 0 := by linarith
  have hhsq : h ^ 2 ≠ 0 := pow_ne_zero 2 hh
  simp only [lamb]
  have harg : Real.pi * (k : ℝ) / (((N - 2 : ℕ) : ℝ) + 1)
      = 2 * ((k : ℝ) * Real.pi / (2 * ((N : ℝ) - 1))) := by
    rw [hD]
    field_simp
    ring
  rw [harg, Real.cos_two_mul]
  have hc2 : 4 / h ^ 2 * Real.sin ((k : ℝ) * Real.pi / (2 * ((N : ℝ) - 1))) ^ 2 * h ^ 2 / 2
      = 2 * Real.sin ((k : ℝ) * Real.pi / (2 * ((N : ℝ) - 1))) ^ 2 := by
    field_simp
    ring
  rw [hc2]
  have hpyth := Real.sin_sq_add_cos_sq ((k : ℝ) * Real.pi / (2 * ((N : ℝ) - 1)))
  linarith

theorem stencil_term (N : ℕ) (h : ℝ) (rhs : ℕ → ℕ → ℝ) (g1 g2 : ℤ)
    (hN : 3 ≤ N) (hh : h ≠ 0) (x y : ℕ)
    (hx : x ∈ Finset.Icc 1 (N - 2)) (hy : y ∈ Finset.Icc 1 (N - 2)) :
    4 * dst2d (N - 2) rhs (x - 1) (y - 1) * dirichlet_mul N h (x - 1) (y - 1)
        * Real.sin (Real.pi * ((g1 + 1 : ℤ) : ℝ) * x / (((N - 2 : ℕ) : ℝ) + 1))
        * Real.sin (Real.pi * (g2 : ℝ) * y / (((N - 2 : ℕ) : ℝ) + 1))
      + 4 * dst2d (N - 2) rhs (x - 1) (y - 1) * dirichlet_mul N h (x - 1) (y - 1)
        * Real.sin (Real.pi * ((g1 - 1 : ℤ) : ℝ) * x / (((N - 2 : ℕ) : ℝ) + 1))
        * Real.sin (Real.pi * (g2 : ℝ) * y / (((N - 2 : ℕ) : ℝ) + 1))
      + 4 * dst2d (N - 2) rhs (x - 1) (y - 1) * dirichlet_mul N h (x - 1) (y - 1)
        * Real.sin (Real.pi * (g1 : ℝ) * x / (((N - 2 : ℕ) : ℝ) + 1))
        * Real.sin (Real.pi * ((g2 + 1 : ℤ) : ℝ) * y / (((N - 2 : ℕ) : ℝ) + 1))
      + 4 * dst2d (N - 2) rhs (x - 1) (y - 1) * dirichlet_mul N h (x - 1) (y - 1)
        * Real.sin (Real.pi * (g1 : ℝ) * x / (((N - 2 : ℕ) : ℝ) + 1))
        * Real.sin (Real.pi * ((g2 - 1 : ℤ) : ℝ) * y / (((N - 2 : ℕ) : ℝ) + 1))
      - 4 * (4 * dst2d (N - 2) rhs (x - 1) (y - 1) * dirichlet_mul N h (x - 1) (y - 1)
        * Real.sin (Real.pi * (g1 : ℝ) * x / (((N - 2 : ℕ) : ℝ) + 1))
        * Real.sin (Real.pi * (g2 : ℝ) * y / (((N - 2 : ℕ) : ℝ) + 1)))
      = -(4 * dst2d (N - 2) rhs (x - 1) (y - 1)) / (2 * ((N : ℝ) - 1)) ^ 2 * h ^ 2
          * Real.sin (Real.pi * (g1 : ℝ) * x / (((N - 2 : ℕ) : ℝ) + 1))
          * Real.sin (Real.pi * (g2 : ℝ) * y / (((N - 2 : ℕ) : ℝ) + 1)) := by
  simp only [Finset.mem_Icc] at hx hy
  have hNR : (3 : ℝ) ≤ (N : ℝ) := by exact_mod_cast hN
  have hNe : ((N : ℝ) - 1) ≠ 0 := by linarith
  have hNe2 : (2 * ((N : ℝ) - 1)) ≠ 0 := mul_ne_zero two_ne_zero hNe
  have hlamx := lamb_pos N h x hN hh hx.1 hx.2
  have hlamy := lamb_pos N h y hN hh hy.1 hy.2
  have hlam : lamb N h x + lamb N h y ≠ 0 := ne_of_gt (add_pos hlamx hlamy)
  have hm : dirichlet_mul N h (x - 1) (y - 1)
      = 1 / (2 * ((N : ℝ) - 1)) ^ 2 / (lamb N h x + lamb N h y) := by
    simp only [dirichlet_mul]
    rw [show x - 1 + 1 = x by omega, show y - 1 + 1 = y by omega]
  rw [show Real.pi * ((g1 + 1 : ℤ) : ℝ) * (x : ℝ) / (((N - 2 : ℕ) : ℝ) + 1)
      = Real.pi * (g1 : ℝ) * x / (((N - 2 : ℕ) : ℝ) + 1)
        + Real.pi * (x : ℝ) / (((N - 2 : ℕ) : ℝ) + 1) by
      push_cast
      ring,
    show Real.pi * ((g1 - 1 : ℤ) : ℝ) * (x : ℝ) / (((N - 2 : ℕ) : ℝ) + 1)
      = Real.pi * (g1 : ℝ) * x / (((N - 2 : ℕ) : ℝ) + 1)
        - Real.pi * (x : ℝ) / (((N - 2 : ℕ) : ℝ) + 1) by
      push_cast
      ring,
    show Real.pi * ((g2 + 1 : ℤ) : ℝ) * (y : ℝ) / (((N - 2 : ℕ) : ℝ) + 1)
      = Real.pi * (g2 : ℝ) * y / (((N - 2 : ℕ) : ℝ) + 1)
        + Real.pi * (y : ℝ) / (((N - 2 : ℕ) : ℝ) + 1) by
      push_cast
      ring,
    show Real.pi * ((g2 - 1 : ℤ) : ℝ) * (y : ℝ) / (((N - 2 : ℕ) : ℝ) + 1)
      = Real.pi * (g2 : ℝ) * y / (((N - 2 : ℕ) : ℝ) + 1)
        - Real.pi * (y : ℝ) / (((N - 2 : ℕ) : ℝ) + 1) by
      push_cast
      ring,
    Real.sin_add, Real.sin_add, Real.sin_sub, Real.sin_sub, hm,
    lamb_cos N h x hN hh, lamb_cos N h y hN hh]
  field_simp [hlam, hNe2]
  ring

theorem dirichlet_solve_lap5 (N : ℕ) (h : ℝ) (rhs : ℕ → ℕ → ℝ) (hN : 3 ≤ N) (hh : h ≠ 0)
    (g1 g2 : ℤ) (hg11 : 1 ≤ g1) (hg12 : g1 ≤ (N : ℤ) - 2)
    (hg21 : 1 ≤ g2) (hg22 : g2 ≤ (N : ℤ) - 2) :
    lap5 h (dirichlet_solve N h rhs) g1 g2 = -(rhs (g1 - 1).toNat (g2 - 1).toNat) := by
  have hN2 : 2 ≤ N := by omega
  have hNR : (3 : ℝ) ≤ (N : ℝ) := by exact_mod_cast hN
  have hNe : ((N : ℝ) - 1) ≠ 0 := by linarith
  have hNe2 : (2 * ((N : ℝ) - 1)) ≠ 0 := mul_ne_zero two_ne_zero hNe
  have hhsq : h ^ 2 ≠ 0 := pow_ne_zero 2 hh
  have hD : (((N - 2 : ℕ) : ℝ) + 1) = (N : ℝ) - 1 := by
    push_cast [Nat.cast_sub hN2]
    ring
  have hNZ : (3 : ℤ) ≤ (N : ℤ) := by exact_mod_cast hN
  have hsE := dirichlet_solve_series N h rhs hN2 (g1 + 1) g2
    (by omega) (by omega) (by omega) (by omega)
  have hsW := dirichlet_solve_series N h rhs hN2 (g1 - 1) g2
    (by omega) (by omega) (by omega) (by omega)
  have hsN := dirichlet_solve_series N h rhs hN2 g1 (g2 + 1)
    (by omega) (by omega) (by omega) (by omega)
  have hsS := dirichlet_solve_series N h rhs hN2 g1 (g2 - 1)
    (by omega) (by omega) (by omega) (by omega)
  have hs0 := dirichlet_solve_series N h rhs hN2 g1 g2
    (by omega) (by omega) (by omega) (by omega)
  have hnum := sum_lin5 (fun x hx =>
    sum_lin5 (fun y hy => stencil_term N h rhs g1 g2 hN hh x y hx hy))
  simp only [lap5]
  rw [hsE, hsW, hsN, hsS, hs0, hnum]
  trans ((-16) / (2 * ((N : ℝ) - 1)) ^ 2
    * ∑ x ∈ Finset.Icc 1 (N - 2), ∑ y ∈ Finset.Icc 1 (N - 2),
        (∑ u ∈ Finset.Icc 1 (N - 2), ∑ v ∈ Finset.Icc 1 (N - 2), rhs (u - 1) (v - 1)
            * Real.sin (Real.pi * u * x / (((N - 2 : ℕ) : ℝ) + 1))
            * Real.sin (Real.pi * v * y / (((N - 2 : ℕ) : ℝ) + 1)))
          * Real.sin (Real.pi * (g1.toNat : ℝ) * x / (((N - 2 : ℕ) : ℝ) + 1))
          * Real.sin (Real.pi * (g2.toNat : ℝ) * y / (((N - 2 : ℕ) : ℝ) + 1)))
  · rw [Finset.sum_div, Finset.mul_sum]
    apply Finset.sum_congr rfl
    intro x hx
    rw [Finset.sum_div, Finset.mul_sum]
    apply Finset.sum_congr rfl
    intro y hy
    simp only [Finset.mem_Icc] at hx hy
    rw [dst2d_eq_sine_sum (N - 2) rhs (x - 1) (y - 1),
      show x - 1 + 1 = x by omega, show y - 1 + 1 = y by omega,
      show ((g1.toNat : ℕ) : ℝ) = (g1 : ℝ) by
        exact_mod_cast Int.toNat_of_nonneg (by omega : (0 : ℤ) ≤ g1),
      show ((g2.toNat : ℕ) : ℝ) = (g2 : ℝ) by
        exact_mod_cast Int.toNat_of_nonneg (by omega : (0 : ℤ) ≤ g2)]
    have hswap : (∑ u ∈ Finset.Icc 1 (N - 2), ∑ v ∈ Finset.Icc 1 (N - 2), rhs (u - 1) (v - 1)
          * Real.sin (Real.pi * (x : ℝ) * u / (((N - 2 : ℕ) : ℝ) + 1))
          * Real.sin (Real.pi * (y : ℝ) * v / (((N - 2 : ℕ) : ℝ) + 1)))
        = ∑ u ∈ Finset.Icc 1 (N - 2), ∑ v ∈ Finset.Icc 1 (N - 2), rhs (u - 1) (v - 1)
          * Real.sin (Real.pi * (u : ℝ) * x / (((N - 2 : ℕ) : ℝ) + 1))
          * Real.sin (Real.pi * (v : ℝ) * y / (((N - 2 : ℕ) : ℝ) + 1)) := by
      apply Finset.sum_congr rfl
      intro u _
      apply Finset.sum_congr rfl
      intro v _
      rw [show Real.pi * (x : ℝ) * u / (((N - 2 : ℕ) : ℝ) + 1)
          = Real.pi * (u : ℝ) * x / (((N - 2 : ℕ) : ℝ) + 1) by ring,
        show Real.pi * (y : ℝ) * v / (((N - 2 : ℕ) : ℝ) + 1)
          = Real.pi * (v : ℝ) * y / (((N - 2 : ℕ) : ℝ) + 1) by ring]
    rw [hswap]
    field_simp [hh, hNe2]
    ring
  · calc (-16) / (2 * ((N : ℝ) - 1)) ^ 2
        * ∑ x ∈ Finset.Icc 1 (N - 2), ∑ y ∈ Finset.Icc 1 (N - 2),
            (∑ u ∈ Finset.Icc 1 (N - 2), ∑ v ∈ Finset.Icc 1 (N - 2), rhs (u - 1) (v - 1)
                * Real.sin (Real.pi * u * x / (((N - 2 : ℕ) : ℝ) + 1))
                * Real.sin (Real.pi * v * y / (((N - 2 : ℕ) : ℝ) + 1)))
              * Real.sin (Real.pi * (g1.toNat : ℝ) * x / (((N - 2 : ℕ) : ℝ) + 1))
              * Real.sin (Real.pi * (g2.toNat : ℝ) * y / (((N - 2 : ℕ) : ℝ) + 1))
        = (-16) / (2 * ((N : ℝ) - 1)) ^ 2
            * (((((N - 2 : ℕ) : ℝ) + 1) / 2) ^ 2 * rhs (g1.toNat - 1) (g2.toNat - 1)) :=
          congrArg (fun z => (-16) / (2 * ((N : ℝ) - 1)) ^ 2 * z)
            (double_sine_inversion (N - 2) (fun u v => rhs (u - 1) (v - 1)) g1.toNat g2.toNat
              (by omega) (by omega) (by omega) (by omega))
      _ = -(rhs (g1 - 1).toNat (g2 - 1).toNat) := by
          rw [show g1.toNat - 1 = (g1 - 1).toNat by omega,
            show g2.toNat - 1 = (g2 - 1).toNat by omega, hD]
          field_simp [hNe]
          ring

theorem dirichlet_solve_boundary (N : ℕ) (h : ℝ) (rhs : ℕ → ℕ → ℝ) (i j : ℤ)
    (hij : ¬ (1 ≤ i ∧ i ≤ (N : ℤ) - 2 ∧ 1 ≤ j ∧ j ≤ (N : ℤ) - 2)) :
    dirichlet_solve N h rhs i j = 0 := by
  simp only [dirichlet_solve, padInner]
  exact if_neg hij

/-- C5: `DirichletSolver.solve` (lcode.py 76-117) embeds its result into the
`N x N` grid with zero perimeter, and on the interior the five-point discrete
Laplacian of the result equals MINUS the supplied right-hand side: the solver
inverts `Laplace x = -RHS` (as the code comment at lcode.py 100 says), not
`Laplace x = RHS`. Composed with `calculate_RHS_Ez` (lcode.py 50-55) this
gives `lap5 Ez = +(djx/dx + djy/dy)` by centered differences with divisor
`2 * grid_step_size` - the opposite sign to the spec's
`Delta Ez = RHS = -(djx/dx + djy/dy)`. -/
theorem dirichlet_solver_laplacian (N : ℕ) (h : ℝ) (rhs : ℕ → ℕ → ℝ) (jx jy : ℤ → ℤ → ℝ)
    (hN : 3 ≤ N) (hh : h ≠ 0) (g1 g2 : ℤ)
    (hg11 : 1 ≤ g1) (hg12 : g1 ≤ (N : ℤ) - 2) (hg21 : 1 ≤ g2) (hg22 : g2 ≤ (N : ℤ) - 2) :
    (∀ i j : ℤ, ¬ (1 ≤ i ∧ i ≤ (N : ℤ) - 2 ∧ 1 ≤ j ∧ j ≤ (N : ℤ) - 2) →
        dirichlet_solve N h rhs i j = 0)
    ∧ lap5 h (dirichlet_solve N h rhs) g1 g2 = -(rhs (g1 - 1).toNat (g2 - 1).toNat)
    ∧ lap5 h (calculate_Ez N h jx jy) g1 g2
        = ((jx (g1 + 1) g2 - jx (g1 - 1) g2) + (jy g1 (g2 + 1) - jy g1 (g2 - 1)))
          / (h * 2) := by
  refine ⟨fun i j hij => dirichlet_solve_boundary N h rhs i j hij,
    dirichlet_solve_lap5 N h rhs hN hh g1 g2 hg11 hg12 hg21 hg22, ?_⟩
  have h3 := dirichlet_solve_lap5 N h (calculate_RHS_Ez h jx jy) hN hh g1 g2
    hg11 hg12 hg21 hg22
  simp only [calculate_Ez]
  rw [h3]
  simp only [calculate_RHS_Ez]
  rw [show (((g1 - 1).toNat : ℕ) : ℤ) = g1 - 1 from Int.toNat_of_nonneg (by omega),
    show (((g2 - 1).toNat : ℕ) : ℤ) = g2 - 1 from Int.toNat_of_nonneg (by omega),
    show g1 - 1 + 2 = g1 + 1 by ring, show g2 - 1 + 1 = g2 by ring,
    show g2 - 1 + 2 = g2 + 1 by ring, show g1 - 1 + 1 = g1 by ring]
  ring

theorem dirichlet_solver_laplacian_witness :
    (∀ i j : ℤ, ¬ (1 ≤ i ∧ i ≤ ((3 : ℕ) : ℤ) - 2 ∧ 1 ≤ j ∧ j ≤ ((3 : ℕ) : ℤ) - 2) →
        dirichlet_solve 3 1 (fun _ _ => 1) i j = 0)
    ∧ lap5 1 (dirichlet_solve 3 1 (fun _ _ => 1)) 1 1 = -1
    ∧ lap5 1 (calculate_Ez 3 1 (fun _ _ => 0) (fun _ _ => 0)) 1 1
        = ((0 - 0) + (0 - 0)) / (1 * 2) :=
  dirichlet_solver_laplacian 3 1 (fun _ _ => 1) (fun _ _ => 0) (fun _ _ => 0)
    (by norm_num) (by norm_num) 1 1 (by norm_num) (by norm_num) (by norm_num) (by norm_num)

/-- C5 counterexample: with `N = 3`, `h = 1` and the constant right-hand side
`1`, the five-point Laplacian of the solver output at the unique interior
point is `-1`, not `+1 = RHS(0, 0)` as the spec's `Delta Ez = RHS` states. -/
theorem dirichlet_solver_sign_cex :
    lap5 1 (dirichlet_solve 3 1 (fun _ _ => 1)) 1 1 = -1
      ∧ ((-1 : ℝ) ≠ (fun (_ _ : ℕ) => (1 : ℝ)) 0 0) := by
  constructor
  · exact dirichlet_solve_lap5 3 1 (fun _ _ => 1) (by norm_num) (by norm_num) 1 1
      (by norm_num) (by norm_num) (by norm_num) (by norm_num)
  · norm_num

end LCode
